import Mathlib

/-!
Verification development for the okidoki document wiki backend.

The definitions below are a shallow embedding of the Go source:
  * src/be/search.go     : the in-memory inverted search index,
  * src/be/storage_git.go: the filesystem tree store and the git-backed
    document history reconstruction.

Go maps are embedded as association lists, Go errors as Except, and the
third-party collaborators (the snowball stemmer, the unidecode
transliteration table, go-git) are either parameters of the embedded
state (stemmer, transliteration) or modelled explicitly (the git log and
tree-diff behaviour used by the history walk).
-/

namespace Okidoki

/-! ## Shared string helpers (Go strings package) -/

/-- Whitespace recognised by Go strings.Fields for ASCII input
(unicode.IsSpace on the ASCII range). -/
def goIsSpace (c : Char) : Bool :=
  c == ' ' || c == '\t' || c == '\n' || c == '\x0b' || c == '\x0c' || c == '\r'

/-- Split a character list at every separator, keeping empty pieces
(the splitting scheme shared by Go strings.Split and strings.Fields). -/
def splitChars (p : Char → Bool) : List Char → List (List Char)
  | [] => [[]]
  | c :: cs =>
    let r := splitChars p cs
    if p c then [] :: r
    else
      match r with
      | [] => [[c]]
      | w :: ws => (c :: w) :: ws

/-- Go strings.Fields: split around runs of whitespace, dropping empties. -/
def goFields (s : String) : List String :=
  ((splitChars goIsSpace s.data).map String.mk).filter (fun w => w ≠ "")

/-- Go strings.ToLower (character-wise; agrees with Go on ASCII). -/
def toLowerStr (s : String) : String :=
  String.mk (s.data.map Char.toLower)

/-- Go strings.Trim: remove leading and trailing characters of the cutset. -/
def goTrim (s : String) (cut : List Char) : String :=
  String.mk (((s.data.dropWhile (fun c => cut.contains c)).reverse.dropWhile
      (fun c => cut.contains c)).reverse)

/-- Go strings.TrimSuffix for the ".md" suffix (trimMD in storage_git.go). -/
def trimMD (s : String) : String :=
  match s.data.reverse with
  | 'd' :: 'm' :: '.' :: rest => String.mk rest.reverse
  | _ => s

/-- List-level prefix test (Go strings.HasPrefix). -/
def isPrefixChars : List Char → List Char → Bool
  | [], _ => true
  | _ :: _, [] => false
  | a :: as, b :: bs => a == b && isPrefixChars as bs

/-- Go strings.HasPrefix. -/
def strHasPrefix (pre s : String) : Bool := isPrefixChars pre.data s.data

/-- Lexicographic strict comparison of character lists (byte-wise string
comparison as Go performs on UTF-8 strings; identical on ASCII). -/
def ltChars : List Char → List Char → Bool
  | [], [] => false
  | [], _ :: _ => true
  | _ :: _, [] => false
  | a :: as, b :: bs =>
    if Nat.blt a.toNat b.toNat then true
    else if Nat.blt b.toNat a.toNat then false
    else ltChars as bs

/-- Go string less-than. -/
def ltStr (s t : String) : Bool := ltChars s.data t.data

/-- Go string less-or-equal. -/
def leStr (s t : String) : Bool := !(ltStr t s)

/-! ## Association-list embedding of Go maps -/

/-- Map lookup. -/
def lookupA {α : Type} (l : List (String × α)) (k : String) : Option α :=
  (l.find? (fun e => e.1 == k)).map (fun e => e.2)

/-- Map insert / overwrite at a key. -/
def setA {α : Type} (l : List (String × α)) (k : String) (v : α) :
    List (String × α) :=
  match l with
  | [] => [(k, v)]
  | e :: t => if e.1 == k then (k, v) :: t else e :: setA t k v

/-- Go delete(m, k): drop the key. -/
def eraseA {α : Type} (l : List (String × α)) (k : String) :
    List (String × α) :=
  l.filter (fun e => !(e.1 == k))

/-! ## Search engine state (search.go)

The Go struct holds two maps, the configured language set and the
snowball stemming function.  The stemmer is a function field in the
source too; a stemming error is embedded as none. -/

structure Doc where
  Path : String
  Title : String
  Content : String
deriving DecidableEq

structure SearchEngine where
  index : List (String × List (String × Nat))
  documents : List (String × Doc)
  languages : List String
  stemmer : String → String → Option String

/-- NewSearchEngine: empty index and document store. -/
def NewSearchEngine (languages : List String)
    (stemmer : String → String → Option String) : SearchEngine :=
  ⟨[], [], languages, stemmer⟩

/-- The punctuation cutset ".,!?\"'()[]{}" trimmed from token ends. -/
def punct : List Char :=
  ['.', ',', '!', '?', '"', '\'', '(', ')', '[', ']', Char.ofNat 123, Char.ofNat 125]

/-- Lowercase then trim punctuation, as both indexing and search do. -/
def normToken (w : String) : String := goTrim (toLowerStr w) punct

/-- getBasePath: filepath.Join of "data" with the document path
(inputs are assumed slash-normalised, as produced by the tree store). -/
def getBasePath (docPath : String) : String :=
  if docPath = "" then "data" else "data/" ++ docPath

/-- A single count increment inside one bucket (map[fullPath]++ with a
zero default). -/
def bumpA : List (String × Nat) → String → List (String × Nat)
  | [], k => [(k, 1)]
  | e :: t, k => if e.1 == k then (e.1, e.2 + 1) :: t else e :: bumpA t k

/-- se.index[stemmed][fullPath]++ including creation of a missing bucket. -/
def bumpIdx (idx : List (String × List (String × Nat))) (stem pathK : String) :
    List (String × List (String × Nat)) :=
  match idx with
  | [] => [(stem, [(pathK, 1)])]
  | e :: t =>
    if e.1 == stem then (e.1, bumpA e.2 pathK) :: t else e :: bumpIdx t stem pathK

/-- IndexDocument: store the document under its base path, then for every
whitespace token and every configured language add one occurrence of the
language-specific stem.  Stemming failures (none) and empty stems are
skipped.  The Go function always returns a nil error. -/
def IndexDocument (se : SearchEngine) (doc : Doc) : Except String SearchEngine :=
  let fullPath := getBasePath doc.Path
  let docs' := setA se.documents fullPath doc
  let words := goFields (doc.Title ++ " " ++ doc.Content)
  let idx' := words.foldl (fun acc w =>
    let w' := normToken w
    se.languages.foldl (fun acc2 lang =>
      match se.stemmer w' lang with
      | some stemmed => if stemmed ≠ "" then bumpIdx acc2 stemmed fullPath else acc2
      | none => acc2) acc) se.index
  .ok { se with index := idx', documents := docs' }

/-- Remove a path from one stem bucket; prune the stem when the bucket
becomes empty (the delete / prune step of DeleteDocument). -/
def eraseStem (idx : List (String × List (String × Nat))) (stem pathK : String) :
    List (String × List (String × Nat)) :=
  match lookupA idx stem with
  | none => idx
  | some bucket =>
    let b' := eraseA bucket pathK
    if b'.isEmpty then eraseA idx stem else setA idx stem b'

/-- DeleteDocument on the search engine: fails when the path is not in
the document store; otherwise re-derives every stem of the stored
Title+Content under every language and removes the path from those
buckets, pruning emptied stems, then drops the stored document. -/
def DeleteDocumentS (se : SearchEngine) (docPath : String) :
    Except String SearchEngine :=
  let fullPath := getBasePath docPath
  match lookupA se.documents fullPath with
  | none => .error ("document not found: " ++ docPath)
  | some doc =>
    let words := goFields (doc.Title ++ " " ++ doc.Content)
    let idx' := se.languages.foldl (fun acc lang =>
      words.foldl (fun acc2 w =>
        let w' := normToken w
        match se.stemmer w' lang with
        | some stemmed => if stemmed ≠ "" then eraseStem acc2 stemmed fullPath else acc2
        | none => acc2) acc) se.index
    .ok { se with index := idx', documents := eraseA se.documents fullPath }

/-- results[docPath] += count accumulation used by Search. -/
def addA (l : List (String × Nat)) (k : String) (n : Nat) : List (String × Nat) :=
  match l with
  | [] => [(k, n)]
  | e :: t => if e.1 == k then (e.1, e.2 + n) :: t else e :: addA t k n

/-- The per-document occurrence sums for a query: tokenize and stem the
query exactly as indexing does and sum bucket counts per path. -/
def searchResults (se : SearchEngine) (query : String) : List (String × Nat) :=
  (goFields query).foldl (fun acc w =>
    let w' := normToken w
    se.languages.foldl (fun acc2 lang =>
      match se.stemmer w' lang with
      | some stemmed =>
        if stemmed ≠ "" then
          match lookupA se.index stemmed with
          | some docs => docs.foldl (fun a e => addA a e.1 e.2) acc2
          | none => acc2
        else acc2
      | none => acc2) acc) []

/-- The swap condition of the sorting loop in Search: the candidate x
(at index j) must precede the current element y (at index i) when it has
the same score but a smaller path, or a strictly larger score. -/
def beats (x y : String × Nat) : Bool :=
  (x.2 == y.2 && ltStr x.1 y.1) || decide (y.2 < x.2)

/-- One pass of the inner loop (j from i+1 upward): scan the tail,
swapping the current element whenever the candidate beats it.  Returns
the element left at position i and the tail as rearranged by the swaps. -/
def selectStep (x : String × Nat) (xs : List (String × Nat)) :
    (String × Nat) × List (String × Nat) :=
  match xs with
  | [] => (x, [])
  | y :: ys =>
    if beats y x then
      let r := selectStep y ys
      (r.1, x :: r.2)
    else
      let r := selectStep x ys
      (r.1, y :: r.2)

/-- The double loop of Search (selection sort by descending score,
ties by ascending path), with fuel equal to the list length. -/
def sortResultsF : Nat → List (String × Nat) → List (String × Nat)
  | 0, l => l
  | _ + 1, [] => []
  | n + 1, x :: xs =>
    let r := selectStep x xs
    r.1 :: sortResultsF n r.2

/-- The fully ordered result list Search builds before pagination. -/
def sortResults (l : List (String × Nat)) : List (String × Nat) :=
  sortResultsF l.length l

/-- The globally ordered (pre-pagination) result list of a query. -/
def searchSorted (se : SearchEngine) (query : String) : List (String × Nat) :=
  sortResults (searchResults se query)

/-- The body of Search: coerce page and pageSize, order all results,
apply the 1-based page window, and hydrate documents from the store
(paths missing from the store are skipped). -/
def searchCore (se : SearchEngine) (query : String) (page pageSize : Int) :
    List Doc × Nat :=
  let p := if page < 1 then 1 else page
  let ps := if pageSize < 1 then 10 else pageSize
  let sorted := searchSorted se query
  let total := sorted.length
  let start := ((p - 1) * ps).toNat
  if total ≤ start then ([], total)
  else
    let endIdx := min (start + ps.toNat) total
    let win := (sorted.drop start).take (endIdx - start)
    let docsOut := win.foldl (fun acc e =>
      match lookupA se.documents e.1 with
      | some d => acc ++ [d]
      | none => acc) []
    (docsOut, total)

/-- Search: the Go function returns (results, total, err) with err
always nil. -/
def Search (se : SearchEngine) (query : String) (page pageSize : Int) :
    Except String (List Doc × Nat) :=
  .ok (searchCore se query page pageSize)

/-! ## Tree store filesystem model (storage_git.go)

The docs directory is modelled as a rose tree: a node is either a
directory with named entries or a file with content.  Paths are lists of
components (the Go code joins them with slashes).  os.ReadDir returns
entries sorted by name, which the model reproduces where iteration
order matters.  Injected environment flags stand for I/O and git-commit
failures of the external world. -/

inductive Ent where
  | dir (entries : List (String × Ent))
  | file (content : String)

/-- Whether a node is a directory. -/
def Ent.isDir : Ent → Bool
  | .dir _ => true
  | .file _ => false

/-- Resolve a path, os.Stat style. -/
def lookupFs (e : Ent) : List String → Option Ent
  | [] => some e
  | n :: p =>
    match e with
    | .file _ => none
    | .dir es =>
      match lookupA es n with
      | some c => lookupFs c p
      | none => none

/-- os.Mkdir: the parent must exist, the target must not. -/
def mkdirFs (e : Ent) : List String → Option Ent
  | [] => none
  | [n] =>
    match e with
    | .dir es =>
      match lookupA es n with
      | some _ => none
      | none => some (.dir (es ++ [(n, .dir [])]))
    | .file _ => none
  | n :: p =>
    match e with
    | .dir es =>
      match lookupA es n with
      | some c => (mkdirFs c p).map (fun c' => .dir (setA es n c'))
      | none => none
    | .file _ => none

/-- os.WriteFile: create or overwrite a file; fails on a directory or a
missing parent. -/
def writeFileFs (e : Ent) (content : String) : List String → Option Ent
  | [] => none
  | [n] =>
    match e with
    | .dir es =>
      match lookupA es n with
      | some (.dir _) => none
      | _ => some (.dir (setA es n (.file content)))
    | .file _ => none
  | n :: p =>
    match e with
    | .dir es =>
      match lookupA es n with
      | some c => (writeFileFs c content p).map (fun c' => .dir (setA es n c'))
      | none => none
    | .file _ => none

/-- os.RemoveAll: remove the subtree at a path; a missing path is a
no-op. -/
def removeAllFs (e : Ent) : List String → Ent
  | [] => e
  | [n] =>
    match e with
    | .dir es => .dir (eraseA es n)
    | .file c => .file c
  | n :: p =>
    match e with
    | .dir es =>
      match lookupA es n with
      | some c => .dir (setA es n (removeAllFs c p))
      | none => .dir es
    | .file c => .file c

/-- Place a subtree at a path whose parent exists (helper for rename). -/
def setEntryFs (e : Ent) (v : Ent) : List String → Option Ent
  | [] => none
  | [n] =>
    match e with
    | .dir es => some (.dir (setA es n v))
    | .file _ => none
  | n :: p =>
    match e with
    | .dir es =>
      match lookupA es n with
      | some c => (setEntryFs c v p).map (fun c' => .dir (setA es n c'))
      | none => none
    | .file _ => none

/-- os.Rename: the source must exist; renaming onto the same path is a
no-op; an existing target is replaced only when it is an empty
directory or a file of the same kind; a non-empty directory target, a
kind mismatch or a missing target parent fail. -/
def renameFs (e : Ent) (oldP newP : List String) : Option Ent :=
  match lookupFs e oldP with
  | none => none
  | some m =>
    if oldP == newP then some e
    else
      match lookupFs e newP with
      | some (.dir (_ :: _)) => none
      | some t =>
        if m.isDir == t.isDir then setEntryFs (removeAllFs e oldP) m newP else none
      | none => setEntryFs (removeAllFs e oldP) m newP

/-- Insertion of a name into a sorted name list. -/
def insSortedStr (s : String) : List String → List String
  | [] => [s]
  | t :: ts => if leStr s t then s :: t :: ts else t :: insSortedStr s ts

/-- Sort names ascending, as os.ReadDir does. -/
def sortStrs (l : List String) : List String := l.foldr insSortedStr []

/-- Directory entry names in os.ReadDir order. -/
def sortedNames (es : List (String × Ent)) : List String :=
  sortStrs (es.map (fun e => e.1))

/-- The first file (non-directory) name in ReadDir order, used by
getTitle and readDocument. -/
def firstFileName (es : List (String × Ent)) : Option String :=
  (sortedNames es).find? (fun n =>
    match lookupA es n with
    | some (.file _) => true
    | _ => false)

/-- The last file name in ReadDir order (getChildren keeps overwriting
the title variable while scanning a child directory). -/
def lastFileName (es : List (String × Ent)) : Option String :=
  (sortedNames es).foldl (fun acc n =>
    match lookupA es n with
    | some (.file _) => some n
    | _ => acc) none

/-- getTitle: the first non-directory entry of the node, ".md" trimmed. -/
def getTitleFs (e : Ent) (docPath : List String) : Option String :=
  match lookupFs e docPath with
  | some (.dir es) => (firstFileName es).map trimMD
  | _ => none

/-- hasChildren: whether any entry of the node is a directory;
none when the directory cannot be read. -/
def hasChildrenFs (e : Ent) (docPath : List String) : Option Bool :=
  match lookupFs e docPath with
  | some (.dir es) => some (es.any (fun en => en.2.isDir))
  | _ => none

/-- Short document projection used in child listings. -/
structure ShortDoc where
  ID : String
  Title : String
  HasChildren : Bool
  Path : List String
deriving DecidableEq

/-- getChildren: one ShortDocument per child directory, in ReadDir
order; the child title is the last file of the child (empty when the
child holds no file). -/
def getChildrenFs (e : Ent) (docPath : List String) : Option (List ShortDoc) :=
  match lookupFs e docPath with
  | some (.dir es) =>
    some ((sortedNames es).foldl (fun acc n =>
      match lookupA es n with
      | some (.dir ces) =>
        acc ++ [⟨n, (match lastFileName ces with
                     | some f => trimMD f
                     | none => ""),
                ces.any (fun x => x.2.isDir), docPath ++ [n]⟩]
      | _ => acc) [])
  | _ => none

/-- A full document as returned by the tree store (the Modified and
Uncommitted fields, which only mirror filesystem and git status, are
not modelled). -/
structure GDoc where
  ID : String
  Title : String
  Content : String
  Children : List ShortDoc
  Path : List String
deriving DecidableEq

/-- readDocument: the first file of the node gives title and content. -/
def readDocumentFs (e : Ent) (docPath : List String) : Option GDoc :=
  match lookupFs e docPath with
  | some (.dir es) =>
    match firstFileName es with
    | some f =>
      match lookupA es f with
      | some (.file data) =>
        (getChildrenFs e docPath).map (fun ch =>
          ⟨docPath.getLastD ("."), trimMD f, data, ch, docPath⟩)
      | _ => none
    | none => none
  | _ => none

/-! ### ID generation (generateID) -/

/-- strings.ReplaceAll of a single space by an underscore.  Only the
space character U+0020 is replaced; other whitespace is untouched here. -/
def spaceToUnderscore (s : String) : String :=
  String.mk (s.data.map (fun c => if c = ' ' then '_' else c))

/-- A character kept by the regex replacement (the pattern strips every
run of characters outside this class). -/
def isSlugChar (c : Char) : Bool :=
  ('a' ≤ c && c ≤ 'z') || ('A' ≤ c && c ≤ 'Z') || ('0' ≤ c && c ≤ '9') || c == '_'

/-- Strip every character outside the slug class. -/
def stripNonAlnum (s : String) : String :=
  String.mk (s.data.filter isSlugChar)

/-- The base slug of a title: transliterate (the unidecode table is a
parameter of the embedding; it is the identity on printable ASCII),
replace spaces by underscores, strip the rest, lowercase. -/
def genIdBase (translit : String → String) (title : String) : String :=
  toLowerStr (stripNonAlnum (spaceToUnderscore (translit title)))

/-- The collision loop: a candidate is accepted when it differs from
the reserved name root and no sibling entry of that name exists; else
the next candidate is baseID(counter). -/
def genIdLoop (fs : Ent) (parentPath : List String) (baseID : String) :
    Nat → String → Nat → String
  | 0, id, _ => id
  | fuel + 1, id, counter =>
    if id ≠ "root" && (lookupFs fs (parentPath ++ [id])).isNone then id
    else
      genIdLoop fs parentPath baseID fuel
        (baseID ++ "(" ++ toString counter ++ ")") (counter + 1)

/-- generateID: derive the base slug, then resolve collisions against
the existing entries under parentPath.  The fuel bound covers every
possible collision (each blocked candidate consumes a distinct existing
entry, plus one for the reserved name). -/
def generateID (translit : String → String) (fs : Ent)
    (parentPath : List String) (title : String) : String :=
  let base := genIdBase translit title
  let fuel := (match lookupFs fs parentPath with
               | some (.dir es) => es.length
               | _ => 0) + 2
  genIdLoop fs parentPath base fuel base 1

/-! ### Tree store operations -/

/-- Injected outcomes of the external world: a WriteFile I/O failure
and a git commit failure. -/
structure Eenv where
  writeFails : Bool
  commitFails : Bool
deriving DecidableEq

/-- CreateDocument: generate the ID, make the node directory, write the
content file, commit, then list the parent's children.  On a write or
commit failure the freshly created directory is removed again. -/
def CreateDocument (translit : String → String) (env : Eenv) (fs : Ent)
    (parentPath : List String) (title content : String) :
    Except String GDoc × Ent :=
  let id := generateID translit fs parentPath title
  let fullPath := parentPath ++ [id]
  match mkdirFs fs fullPath with
  | none => (.error ("mkdir"), fs)
  | some fs1 =>
    if env.writeFails then (.error ("write file"), removeAllFs fs1 fullPath)
    else
      match writeFileFs fs1 content (fullPath ++ [title ++ ".md"]) with
      | none => (.error ("write file"), removeAllFs fs1 fullPath)
      | some fs2 =>
        if env.commitFails then
          (.error ("failed to commit changes"), removeAllFs fs2 fullPath)
        else
          match getChildrenFs fs2 parentPath with
          | none => (.error ("get children"), fs2)
          | some ch => (.ok ⟨id, title, content, ch, fullPath⟩, fs2)

/-- The common tail of UpdateDocument after the optional renames:
overwrite the content file, commit when requested, list children and
return the document at its (possibly new) path. -/
def updateFinish (env : Eenv) (fs' : Ent) (p : List String)
    (title content : String) (commit : Bool) : Except String GDoc × Ent :=
  match writeFileFs fs' content (p ++ [title ++ ".md"]) with
  | none => (.error ("write file"), fs')
  | some fs2 =>
    if commit && env.commitFails then (.error ("failed to commit changes"), fs2)
    else
      match getChildrenFs fs2 p with
      | none => (.error ("get children"), fs2)
      | some ch => (.ok ⟨p.getLastD ("."), title, content, ch, p⟩, fs2)

/-- UpdateDocument: when the title changed, rename the content file and
then the node directory to a freshly generated ID.  The generateID call
receives docPath itself as the parent argument, so the existence checks
of the collision loop run against the node's own children. -/
def UpdateDocument (translit : String → String) (env : Eenv) (fs : Ent)
    (docPath : List String) (title content : String) (commit : Bool) :
    Except String GDoc × Ent :=
  if (lookupFs fs docPath).isNone then (.error ("document not found"), fs)
  else
    match readDocumentFs fs docPath with
    | none => (.error ("read document"), fs)
    | some currentDoc =>
      if title ≠ currentDoc.Title then
        match getTitleFs fs docPath with
        | none => (.error ("title not found"), fs)
        | some oldTitle =>
          match renameFs fs (docPath ++ [oldTitle ++ ".md"])
              (docPath ++ [title ++ ".md"]) with
          | none => (.error ("rename file"), fs)
          | some fsA =>
            let newID := generateID translit fsA docPath title
            let newPath := docPath.dropLast ++ [newID]
            match renameFs fsA docPath newPath with
            | none => (.error ("rename dir"), fsA)
            | some fsB => updateFinish env fsB newPath title content commit
      else updateFinish env fs docPath title content commit

/-- DeleteDocument on the tree store: refuse when the node has child
directories; otherwise remove the subtree and commit. -/
def DeleteDocumentT (env : Eenv) (fs : Ent) (docPath : List String) :
    Except String Unit × Ent :=
  match hasChildrenFs fs docPath with
  | none => (.error ("read dir"), fs)
  | some true => (.error ("cannot delete document with children"), fs)
  | some false =>
    let fs1 := removeAllFs fs docPath
    if env.commitFails then (.error ("failed to commit changes"), fs1)
    else (.ok (), fs1)

/-! ## Git history model (GetDocumentHistory)

The repository is a linear chain of commits, oldest first; a commit is
a full snapshot mapping repository-relative file paths (docs/...) to
blob hashes.  The go-git behaviours the walk relies on are modelled
explicitly:

  * repo.Log with LogOrderCommitterTime iterates commits newest first;
  * with a PathFilter, a commit is kept when some changed file of its
    diff against its first parent satisfies the filter (for the root
    commit: some file of its tree), the filter being invoked per
    candidate path in tree order until one matches;
  * object.DiffTree emits one change per differing path, in tree
    traversal order, i.e. sorted by path; without rename detection a
    move appears as a from-only change plus a to-only change;
  * commit.Stats reports per-file added and deleted line counts of the
    whole commit (carried as data on the commit).

The PathFilter closure of getDocumentHistory is stateful: its captured
filePath starts empty for a top-level call and is resolved from the
current title on the first invocation, and only invocations that find
filePath already resolved join the candidate path with the base
directory before comparing.  The model threads that state faithfully. -/

structure MCommit where
  chash : String
  ctime : Nat
  msg : String
  files : List (String × Nat)
  stats : List (Nat × Nat)
deriving DecidableEq

structure MRepo where
  commits : List MCommit
  workFiles : List (String × Nat)
deriving DecidableEq

/-- A single change of a tree diff (one path, hence one name). -/
structure MChange where
  path : String
  fromH : Option Nat
  toH : Option Nat
deriving DecidableEq

/-- History entry returned to the caller. -/
structure CommitHistory where
  CommitHash : String
  Date : Nat
  Message : String
  Added : Nat
  Deleted : Nat
  FilePath : String
deriving DecidableEq

/-- Blob hash of a path inside a snapshot. -/
def blobAt (files : List (String × Nat)) (p : String) : Option Nat :=
  (files.find? (fun e => e.1 == p)).map (fun e => e.2)

/-- Diff of two snapshots, one change per differing path, path-sorted. -/
def diffTree (parent cur : List (String × Nat)) : List MChange :=
  (sortStrs ((parent.map (fun e => e.1) ++ cur.map (fun e => e.1)).eraseDups)).filterMap
    (fun p =>
      match blobAt parent p, blobAt cur p with
      | some a, some b => if a == b then none else some ⟨p, some a, some b⟩
      | some a, none => some ⟨p, some a, none⟩
      | none, some b => some ⟨p, none, some b⟩
      | none, none => none)

/-- Go strings.TrimPrefix. -/
def trimPrefixStr (s pre : String) : String :=
  if strHasPrefix pre s then String.mk (s.data.drop pre.data.length) else s

/-- File names directly inside the directory docs/docPath of the
working tree, in ReadDir order (sub-directories only surface as longer
paths and are therefore not listed here). -/
def workDirFiles (files : List (String × Nat)) (docPath : String) : List String :=
  sortStrs (files.filterMap (fun e =>
    let pre := "docs/" ++ docPath ++ "/"
    if strHasPrefix pre e.1 then
      (let rest := String.mk (e.1.data.drop pre.data.length)
       if rest.data.contains '/' then none else some rest)
    else none))

/-- getTitle against the working tree: first file of the node. -/
def getTitleW (repo : MRepo) (docPath : String) : Option String :=
  ((workDirFiles repo.workFiles docPath).head?).map trimMD

/-- os.Stat of the node directory in the working tree: in a checkout a
directory exists exactly when something lives under it. -/
def statDirW (repo : MRepo) (docPath : String) : Bool :=
  repo.workFiles.any (fun e =>
    strHasPrefix ("docs/" ++ docPath ++ "/") e.1 || e.1 == "docs/" ++ docPath)

/-- One invocation of the PathFilter closure.  The state is the
captured filePath variable, empty while unresolved.  When unresolved,
the title is looked up and filePath set; the candidate path s is then
compared raw, without the base-directory join that every later
invocation performs. -/
def pathFilterStep (repo : MRepo) (docPath : String) (st : String)
    (s : String) : String × Bool :=
  if st = "" then
    match getTitleW repo docPath with
    | none => ("", false)
    | some t =>
      let fp := "data/docs/" ++ docPath ++ "/" ++ t ++ ".md"
      (fp, s == fp)
  else (st, ("data/" ++ s) == st)

/-- Run the filter over the candidate names of one commit, stopping at
the first match (hasFileChange semantics), threading the closure state. -/
def scanFilter (repo : MRepo) (docPath : String) (st : String)
    (names : List String) : String × Bool :=
  names.foldl (fun acc n =>
    if acc.2 then acc else pathFilterStep repo docPath acc.1 n) (st, false)

/-- Commits paired with their first parent, oldest first. -/
def commitPairs (repo : MRepo) : List (MCommit × Option MCommit) :=
  repo.commits.zip ((none : Option MCommit) :: repo.commits.map some)

/-- The filtered commit log, newest first: a commit is kept when the
stateful filter accepts one of its changed paths (all tree files for
the root commit). -/
def logFiltered (repo : MRepo) (docPath : String) (initFP : String) :
    List (MCommit × Option MCommit) :=
  ((commitPairs repo).reverse.foldl
    (fun (acc : String × List (MCommit × Option MCommit)) cp =>
      let names := match cp.2 with
        | none => sortStrs (cp.1.files.map (fun e => e.1))
        | some par => (diffTree par.files cp.1.files).map (fun ch => ch.path)
      let r := scanFilter repo docPath acc.1 names
      (r.1, if r.2 then acc.2 ++ [cp] else acc.2))
    (initFP, [])).2

/-- The per-commit change scan: a from-only change whose blob is
unvisited is recorded, marks the blob visited and (re)sets the nested
origin; a change with both sides is always relevant; a one-sided change
is relevant only when its blob is unvisited, which it then marks. -/
def processChanges (visited : List Nat) (changes : List MChange) :
    List Nat × List MChange × Option String :=
  changes.foldl (fun (acc : List Nat × List MChange × Option String) ch =>
    match ch.fromH, ch.toH with
    | some fh, none =>
      if acc.1.contains fh then acc
      else (fh :: acc.1, acc.2.1 ++ [ch], some ch.path)
    | some _, some _ => (acc.1, acc.2.1 ++ [ch], acc.2.2)
    | none, some th =>
      if acc.1.contains th then acc
      else (th :: acc.1, acc.2.1 ++ [ch], acc.2.2)
    | none, none => acc)
    (visited, [], none)

/-- The location recorded on a history entry: the resolved file path
with the docs prefix trimmed and the file name dropped. -/
def joinSlash : List String → String
  | [] => ""
  | [x] => x
  | x :: xs => x ++ "/" ++ joinSlash xs

/-- The location recorded on a history entry: the resolved file path
with the docs prefix trimmed and the file name dropped (TrimPrefix of
the docs directory, Split on the slash, Join of all but the last
segment). -/
def locOf (fp : String) : String :=
  joinSlash (((splitChars (fun c => c == '/') fp.data).map String.mk).drop 2).dropLast

/-- The ForEach body over the filtered log: skip the root commit, diff
against the parent, scan the changes, skip commits with no relevant
change or an already processed hash, append the entry, then run the
nested reconstruction (the recurse argument, a shallower call of
getDocumentHistoryM) at the rename origin when one was found and append
its entries. -/
def walkLog (repo : MRepo) (resolvedFP : String)
    (recurse : String → List Nat → Except String (List CommitHistory × List Nat)) :
    List (MCommit × Option MCommit) → List CommitHistory → List Nat →
    List String → Except String (List CommitHistory × List Nat)
  | [], hist, vis, _ => .ok (hist, vis)
  | cp :: rest, hist, vis, processed =>
    match cp.2 with
    | none => walkLog repo resolvedFP recurse rest hist vis processed
    | some par =>
      let pc := processChanges vis (diffTree par.files cp.1.files)
      if pc.2.1.isEmpty then walkLog repo resolvedFP recurse rest hist pc.1 processed
      else if processed.contains cp.1.chash then
        walkLog repo resolvedFP recurse rest hist pc.1 processed
      else
        let added := (cp.1.stats.map (fun st => st.1)).sum
        let deleted := (cp.1.stats.map (fun st => st.2)).sum
        let entry : CommitHistory :=
          ⟨cp.1.chash, cp.1.ctime, cp.1.msg, added, deleted, locOf resolvedFP⟩
        match pc.2.2 with
        | some origin =>
          match recurse ("data/" ++ origin) pc.1 with
          | .error e => .error e
          | .ok (nh, vis2) =>
            walkLog repo resolvedFP recurse rest (hist ++ [entry] ++ nh) vis2
              (processed ++ [cp.1.chash])
        | none =>
          walkLog repo resolvedFP recurse rest (hist ++ [entry]) pc.1
            (processed ++ [cp.1.chash])

/-- getDocumentHistory: check the path, build the filtered log and walk
it.  filePath empty means a top-level call (resolve from the current
title); visited is the blob-hash set threaded through the whole
recursive reconstruction.  The fuel only serves termination; the
exported entry point supplies enough for any input. -/
def getDocumentHistoryM (repo : MRepo) : Nat → String → String → List Nat →
    Except String (List CommitHistory × List Nat)
  | 0, _, _, _ => .error ("recursion fuel exhausted")
  | fuel + 1, docPath, filePath, visited =>
    if docPath ≠ "" && !statDirW repo docPath then .error ("document not found")
    else
      let resolvedFP := if filePath ≠ "" then filePath else
        (match getTitleW repo docPath with
         | some t => "data/docs/" ++ docPath ++ "/" ++ t ++ ".md"
         | none => "")
      walkLog repo resolvedFP
        (fun fp vis => getDocumentHistoryM repo fuel "" fp vis)
        (logFiltered repo docPath filePath) [] visited []

/-- GetDocumentHistory: run the walk with an empty visited set and fuel
exceeding the number of distinct blobs (every nested call first marks a
previously unvisited blob, bounding the recursion depth). -/
def GetDocumentHistory (repo : MRepo) (docPath : String) :
    Except String (List CommitHistory) :=
  (getDocumentHistoryM repo
      (((repo.commits.map (fun c => c.files.map (fun e => e.2))).flatten.eraseDups).length + 2)
      docPath "" []).map (fun r => r.1)

/-! ## Claim-side definition for the ID derivation

The specification words the slug pipeline as replacing whitespace by
underscores; the source replaces only the space character.  This
definition follows the words of the specification, for comparison with
genIdBase, which is translated from the source. -/

/-- The slug pipeline as the specification words it: transliterate,
replace every whitespace character by an underscore, strip the
non-alphanumerics, lowercase. -/
def slugSpec (translit : String → String) (title : String) : String :=
  toLowerStr (stripNonAlnum (String.mk ((translit title).data.map
    (fun c => if goIsSpace c then '_' else c))))

/-! ## Operation sequences over the search engine -/

/-- One externally driven mutation of the search index. -/
inductive SOp where
  | idx (d : Doc)
  | del (p : String)

/-- Apply one operation; a failing operation leaves the state as the Go
methods do (DeleteDocument returns before mutating on a missing path). -/
def applyOp (se : SearchEngine) : SOp → SearchEngine
  | .idx d =>
    match IndexDocument se d with
    | .ok se' => se'
    | .error _ => se
  | .del p =>
    match DeleteDocumentS se p with
    | .ok se' => se'
    | .error _ => se

/-- Run a sequence of index mutations. -/
def runOps (se : SearchEngine) (ops : List SOp) : SearchEngine :=
  ops.foldl applyOp se

/-- The structural invariant of the inverted index: every stem key maps
to a non-empty bucket and every stored count is positive. -/
def IdxInv (idx : List (String × List (String × Nat))) : Prop :=
  ∀ e ∈ idx, e.2 ≠ [] ∧ ∀ pc ∈ e.2, 0 < pc.2

/-! ## Concrete fixtures used by the claim witnesses -/

/-- A stemmer that never fails: each token is its own stem. -/
def stemId : String → String → Option String := fun w _ => some w

/-- Identity transliteration (unidecode is the identity on printable
ASCII input). -/
def trId : String → String := fun s => s

/-- Environment with no injected failures. -/
def envOk : Eenv := ⟨false, false⟩

/-- A title containing a tab: the spec pipeline and the source pipeline
disagree on it. -/
def tabTitle : String := "a\tb"

/-- Engine state after indexing the document (Path doc1, Title hello,
Content world) into a fresh english-only engine. -/
def seIndexed : SearchEngine :=
  ⟨[("hello", [("data/doc1", 1)]), ("world", [("data/doc1", 1)])],
   [("data/doc1", ⟨"doc1", "hello", "world"⟩)], ["en"], stemId⟩

/-- Engine state after then deleting doc1 again. -/
def seDeleted : SearchEngine := ⟨[], [], ["en"], stemId⟩

/-- Twenty-five distinct document paths. -/
def paths25 : List String := (List.range 25).map (fun i => "p" ++ toString (i + 10))

/-- An engine holding twenty-five documents that all contain the word w. -/
def se25 : SearchEngine :=
  runOps (NewSearchEngine ["en"] stemId)
    (paths25.map (fun p => SOp.idx ⟨p, "t", "w"⟩))

/-- Tree with a node p/x (content file Old.md) and an empty sibling
directory p/y. -/
def fsUpd : Ent :=
  .dir [("p", .dir [("x", .dir [("Old.md", .file ("c"))]), ("y", .dir [])])]

/-- Tree with a node p/x that has a child directory k. -/
def fsDel : Ent :=
  .dir [("p", .dir [("x", .dir [("Old.md", .file ("c")), ("k", .dir [])])])]

/-- Tree with a parent p containing one document q. -/
def fsPar : Ent :=
  .dir [("p", .dir [("q", .dir [("Q.md", .file ("z"))])])]

/-- A node x with content file Old.md and a child directory y (used to
exhibit the child-collision behaviour of UpdateDocument). -/
def fsChild : Ent :=
  .dir [("x", .dir [("Old.md", .file ("c")), ("y", .dir [("Y.md", .file ("k"))])])]

/-- The C1 scenario repository: a document created at docs/b (the
creation commit is the root commit of the repository), edited twice,
renamed to docs/d by a title change, then edited once more.  Blob
hashes 1-4 are the successive content versions. -/
def c1Repo : MRepo :=
  ⟨[⟨"ha", 1, "create", [("docs/b/B.md", 1)], [(1, 0)]⟩,
    ⟨"hb", 2, "edit1", [("docs/b/B.md", 2)], [(1, 1)]⟩,
    ⟨"hc", 3, "edit2", [("docs/b/B.md", 3)], [(1, 1)]⟩,
    ⟨"hm", 4, "rename", [("docs/d/D.md", 3)], [(3, 3)]⟩,
    ⟨"he", 5, "edit3", [("docs/d/D.md", 4)], [(1, 1)]⟩],
   [("docs/d/D.md", 4)]⟩

/-- The same scenario on a repository that already held a commit before
the document was created (the creation commit has a parent). -/
def c1RepoPrior : MRepo :=
  ⟨[⟨"h0", 0, "init", [("docs/x/X.md", 9)], [(1, 0)]⟩,
    ⟨"ha", 1, "create", [("docs/x/X.md", 9), ("docs/b/B.md", 1)], [(1, 0)]⟩,
    ⟨"hb", 2, "edit1", [("docs/x/X.md", 9), ("docs/b/B.md", 2)], [(1, 1)]⟩,
    ⟨"hc", 3, "edit2", [("docs/x/X.md", 9), ("docs/b/B.md", 3)], [(1, 1)]⟩,
    ⟨"hm", 4, "rename", [("docs/x/X.md", 9), ("docs/d/D.md", 3)], [(3, 3)]⟩,
    ⟨"he", 5, "edit3", [("docs/x/X.md", 9), ("docs/d/D.md", 4)], [(1, 1)]⟩],
   [("docs/x/X.md", 9), ("docs/d/D.md", 4)]⟩

/-! ## Helper lemmas: association lists -/

theorem lookupA_nil {α : Type} (k : String) : lookupA ([] : List (String × α)) k = none := rfl

theorem lookupA_cons {α : Type} (e : String × α) (t : List (String × α)) (k : String) :
    lookupA (e :: t) k = if e.1 == k then some e.2 else lookupA t k := by
  cases h : e.1 == k <;> simp [lookupA, List.find?_cons, h]

theorem lookupA_setA_self {α : Type} (l : List (String × α)) (k : String) (v : α) :
    lookupA (setA l k v) k = some v := by
  induction l with
  | nil => simp [setA, lookupA_cons, lookupA_nil]
  | cons e t ih =>
    cases h : e.1 == k <;> simp [setA, h, lookupA_cons, ih]

theorem lookupA_setA_ne {α : Type} (l : List (String × α)) (k m : String) (v : α)
    (h : ¬ m = k) : lookupA (setA l k v) m = lookupA l m := by
  induction l with
  | nil =>
    simp [setA, lookupA_cons, lookupA_nil]
    intro hk
    exact absurd hk.symm h
  | cons e t ih =>
    cases he : e.1 == k
    · simp [setA, he, lookupA_cons, ih]
    · have hk : e.1 = k := by simpa using he
      have hne : ¬ k = m := fun hkm => h hkm.symm
      simp [setA, he, lookupA_cons, hk, hne]

theorem setA_setA {α : Type} (l : List (String × α)) (k : String) (v w : α) :
    setA (setA l k v) k w = setA l k w := by
  induction l with
  | nil => simp [setA]
  | cons e t ih =>
    cases he : e.1 == k <;> simp [setA, he, ih]

theorem setA_self {α : Type} (l : List (String × α)) (k : String) (c : α)
    (h : lookupA l k = some c) : setA l k c = l := by
  induction l with
  | nil => simp [lookupA_nil] at h
  | cons e t ih =>
    cases he : e.1 == k
    · rw [lookupA_cons, he] at h
      simp at h
      simp [setA, he, ih h]
    · have hk : e.1 = k := by simpa using he
      rw [lookupA_cons, he] at h
      simp at h
      simp [setA, he, ← hk, ← h]

theorem lookupA_forall_of_none {α : Type} (l : List (String × α)) (k : String)
    (h : lookupA l k = none) : ∀ e ∈ l, (e.1 == k) = false := by
  intro e he
  have : List.find? (fun e => e.1 == k) l = none := by
    unfold lookupA at h
    cases hf : List.find? (fun x => x.1 == k) l
    · rfl
    · rw [hf] at h; simp at h
  have hne := List.find?_eq_none.mp this e he
  simpa using hne

theorem eraseA_of_none {α : Type} (l : List (String × α)) (k : String)
    (h : lookupA l k = none) : eraseA l k = l := by
  have hall := lookupA_forall_of_none l k h
  unfold eraseA
  rw [List.filter_eq_self]
  intro e he
  simp [hall e he]

theorem eraseA_append_single {α : Type} (l : List (String × α)) (k : String) (v : α)
    (h : lookupA l k = none) : eraseA (l ++ [(k, v)]) k = l := by
  unfold eraseA
  rw [List.filter_append]
  have h1 : List.filter (fun e => !(e.1 == k)) l = l := by
    rw [List.filter_eq_self]
    intro e he
    simp [lookupA_forall_of_none l k h e he]
  have h2 : List.filter (fun e : String × α => !(e.1 == k)) [(k, v)] = [] := by
    simp [List.filter]
  rw [h1, h2, List.append_nil]

theorem eraseA_setA {α : Type} (l : List (String × α)) (k : String) (v : α) :
    eraseA (setA l k v) k = eraseA l k := by
  induction l with
  | nil => simp [setA, eraseA, List.filter_cons]
  | cons e t ih =>
    unfold eraseA at ih ⊢
    cases he : e.1 == k
    · simp only [setA, he, Bool.false_eq_true, if_false, List.filter_cons,
        Bool.not_false, if_true, ih]
    · simp [setA, he, List.filter_cons]

theorem lookupA_append_single_self {α : Type} (l : List (String × α)) (k : String) (v : α)
    (h : lookupA l k = none) : lookupA (l ++ [(k, v)]) k = some v := by
  induction l with
  | nil => simp [lookupA_cons, lookupA_nil]
  | cons e t ih =>
    rw [lookupA_cons] at h
    cases he : e.1 == k
    · rw [he] at h
      simp at h
      simp [lookupA_cons, he, ih h]
    · rw [he] at h; simp at h

theorem lookupA_append_single_ne {α : Type} (l : List (String × α)) (k m : String) (v : α)
    (h : ¬ m = k) : lookupA (l ++ [(k, v)]) m = lookupA l m := by
  induction l with
  | nil =>
    simp [lookupA_cons, lookupA_nil]
    intro hk
    exact absurd hk.symm h
  | cons e t ih =>
    cases he : e.1 == m <;> simp [lookupA_cons, he, ih]

theorem setA_append_fresh {α : Type} (l : List (String × α)) (k : String) (v w : α)
    (h : lookupA l k = none) : setA (l ++ [(k, w)]) k v = l ++ [(k, v)] := by
  induction l with
  | nil => simp [setA]
  | cons e t ih =>
    rw [lookupA_cons] at h
    cases he : e.1 == k
    · rw [he] at h
      simp at h
      simp [setA, he, ih h]
    · rw [he] at h; simp at h

theorem setA_mem {α : Type} (l : List (String × α)) (k : String) (v : α)
    (e : String × α) (h : e ∈ setA l k v) : e = (k, v) ∨ e ∈ l := by
  induction l with
  | nil => simpa [setA] using h
  | cons e' t ih =>
    cases he : e'.1 == k
    · rw [setA, he] at h
      simp only [Bool.false_eq_true, if_false, List.mem_cons] at h
      rcases h with h | h
      · right; simp [h]
      · rcases ih h with h | h
        · left; exact h
        · right; simp [h]
    · rw [setA, he] at h
      simp only [if_true] at h
      rcases List.mem_cons.mp h with h | h
      · left; exact h
      · right; simp [h]

theorem lookupA_mem {α : Type} (l : List (String × α)) (k : String) (v : α)
    (h : lookupA l k = some v) : (k, v) ∈ l := by
  unfold lookupA at h
  cases hf : List.find? (fun x => x.1 == k) l with
  | none => rw [hf] at h; simp at h
  | some e =>
    rw [hf] at h
    simp at h
    have hm := List.mem_of_find?_eq_some hf
    have hp := List.find?_some hf
    have : e.1 = k := by simpa using hp
    have : e = (k, v) := by
      cases e
      simp_all
    rw [← this]
    exact hm

/-! ## Helper lemmas: fold preservation -/

theorem foldl_preserve {α β : Type} (P : α → Prop) (f : α → β → α)
    (h : ∀ a b, P a → P (f a b)) :
    ∀ (l : List β) (a : α), P a → P (l.foldl f a) := by
  intro l
  induction l with
  | nil => intro a ha; exact ha
  | cons b t ih => intro a ha; exact ih (f a b) (h a b ha)

/-! ## Search engine lemmas -/

theorem bumpA_pos (l : List (String × Nat)) (k : String)
    (h : ∀ pc ∈ l, 0 < pc.2) : ∀ pc ∈ bumpA l k, 0 < pc.2 := by
  induction l with
  | nil =>
    intro pc hpc
    simp [bumpA] at hpc
    simp [hpc]
  | cons e t ih =>
    intro pc hpc
    cases he : e.1 == k
    · rw [bumpA, he] at hpc
      simp only [Bool.false_eq_true, if_false, List.mem_cons] at hpc
      rcases hpc with h1 | h1
      · exact h1 ▸ h e (by simp)
      · exact ih (fun pc hm => h pc (by simp [hm])) pc h1
    · rw [bumpA, he] at hpc
      simp only [if_true, List.mem_cons] at hpc
      rcases hpc with h1 | h1
      · simp [h1]
      · exact h pc (by simp [h1])

theorem bumpA_ne_nil (l : List (String × Nat)) (k : String) : bumpA l k ≠ [] := by
  cases l with
  | nil => simp [bumpA]
  | cons e t =>
    cases he : e.1 == k <;> simp [bumpA, he]

theorem bumpIdx_inv (idx : List (String × List (String × Nat))) (stem p : String)
    (h : IdxInv idx) : IdxInv (bumpIdx idx stem p) := by
  induction idx with
  | nil =>
    intro e he
    simp [bumpIdx] at he
    subst he
    exact ⟨by simp, by intro pc hpc; simp at hpc; simp [hpc]⟩
  | cons e0 t ih =>
    intro e he
    cases h0 : e0.1 == stem
    · rw [bumpIdx, h0] at he
      simp only [Bool.false_eq_true, if_false, List.mem_cons] at he
      rcases he with h1 | h1
      · exact h1 ▸ h e0 (by simp)
      · exact ih (fun x hx => h x (by simp [hx])) e h1
    · rw [bumpIdx, h0] at he
      simp only [if_true, List.mem_cons] at he
      rcases he with h1 | h1
      · subst h1
        have h2 := h e0 (by simp)
        exact ⟨bumpA_ne_nil e0.2 p, bumpA_pos e0.2 p h2.2⟩
      · exact h e (by simp [h1])

theorem eraseStem_inv (idx : List (String × List (String × Nat))) (stem p : String)
    (h : IdxInv idx) : IdxInv (eraseStem idx stem p) := by
  unfold eraseStem
  cases hl : lookupA idx stem with
  | none => exact h
  | some bucket =>
    by_cases hb : (eraseA bucket p).isEmpty
    · simp only [hb, if_true]
      intro e he
      exact h e (List.mem_of_mem_filter he)
    · simp only [hb, Bool.false_eq_true, if_false]
      intro e he
      rcases setA_mem idx stem (eraseA bucket p) e he with h1 | h1
      · subst h1
        constructor
        · intro hnil
          have hnil' : eraseA bucket p = [] := hnil
          rw [hnil'] at hb
          simp [List.isEmpty] at hb
        · intro pc hpc
          have hpc' : pc ∈ eraseA bucket p := hpc
          have hmem : pc ∈ bucket := List.mem_of_mem_filter hpc'
          exact (h (stem, bucket) (lookupA_mem idx stem bucket hl)).2 pc hmem
      · exact h e h1

theorem indexFold_inv (se : SearchEngine) (fullPath : String)
    (words : List String) (idx : List (String × List (String × Nat)))
    (h : IdxInv idx) :
    IdxInv (words.foldl (fun acc w =>
      let w' := normToken w
      se.languages.foldl (fun acc2 lang =>
        match se.stemmer w' lang with
        | some stemmed => if stemmed ≠ "" then bumpIdx acc2 stemmed fullPath else acc2
        | none => acc2) acc) idx) := by
  refine foldl_preserve IdxInv _ ?_ words idx h
  intro a w ha
  refine foldl_preserve IdxInv _ ?_ se.languages a ha
  intro a2 lang ha2
  cases hs : se.stemmer (normToken w) lang with
  | none => simp only [hs]; exact ha2
  | some stemmed =>
    simp only [hs]
    by_cases he : stemmed = ""
    · rw [if_neg (fun hcon => hcon he)]
      exact ha2
    · rw [if_pos he]
      exact bumpIdx_inv a2 stemmed fullPath ha2

theorem deleteFold_inv (se : SearchEngine) (fullPath : String)
    (words : List String) (idx : List (String × List (String × Nat)))
    (h : IdxInv idx) :
    IdxInv (se.languages.foldl (fun acc lang =>
      words.foldl (fun acc2 w =>
        let w' := normToken w
        match se.stemmer w' lang with
        | some stemmed => if stemmed ≠ "" then eraseStem acc2 stemmed fullPath else acc2
        | none => acc2) acc) idx) := by
  refine foldl_preserve IdxInv _ ?_ se.languages idx h
  intro a lang ha
  refine foldl_preserve IdxInv _ ?_ words a ha
  intro a2 w ha2
  cases hs : se.stemmer (normToken w) lang with
  | none => simp only [hs]; exact ha2
  | some stemmed =>
    simp only [hs]
    by_cases he : stemmed = ""
    · rw [if_neg (fun hcon => hcon he)]
      exact ha2
    · rw [if_pos he]
      exact eraseStem_inv a2 stemmed fullPath ha2

theorem applyOp_inv (se : SearchEngine) (op : SOp)
    (h : IdxInv se.index) : IdxInv (applyOp se op).index := by
  cases op with
  | idx d =>
    simp only [applyOp, IndexDocument]
    exact indexFold_inv se (getBasePath d.Path)
      (goFields (d.Title ++ " " ++ d.Content)) se.index h
  | del p =>
    simp only [applyOp, DeleteDocumentS]
    cases hl : lookupA se.documents (getBasePath p) with
    | none => exact h
    | some doc =>
      exact deleteFold_inv se (getBasePath p)
        (goFields (doc.Title ++ " " ++ doc.Content)) se.index h

/-- C9: after any sequence of IndexDocument and DeleteDocument
operations from a fresh engine, every stem present in the inverted
index has a non-empty bucket whose counts are all positive (a stem
whose last referencing document is removed is pruned entirely). -/
theorem claim_C9 :
    ∀ (langs : List String) (stem : String → String → Option String)
      (ops : List SOp), ∀ e ∈ (runOps (NewSearchEngine langs stem) ops).index,
      e.2 ≠ [] ∧ ∀ pc ∈ e.2, 0 < pc.2 := by
  intro langs stem ops
  have base : IdxInv (NewSearchEngine langs stem).index := by
    intro e he
    simp [NewSearchEngine] at he
  exact foldl_preserve (fun se => IdxInv se.index) applyOp
    (fun se op hse => applyOp_inv se op hse) ops (NewSearchEngine langs stem) base

/-- C9 witness: the invariant instantiated at the concrete entry the
single-index run produces for the stem hello. -/
theorem claim_C9_witness :
    ([("data/doc1", 1)] : List (String × Nat)) ≠ [] ∧
      0 < (("data/doc1", 1) : String × Nat).2 := by
  have h := claim_C9 ["en"] stemId [SOp.idx ⟨"doc1", "hello", "world"⟩]
    ("hello", [("data/doc1", 1)]) (by decide)
  exact ⟨h.1, h.2 ("data/doc1", 1) (by decide)⟩

/-- C8 counterexample: DeleteDocument on the search index returns a
document-not-found error when the path is not currently indexed, so the
index does surface a NotFound-class error. -/
theorem claim_C8_counterexample :
    DeleteDocumentS (NewSearchEngine ["en"] stemId) ("x") =
      .error ("document not found: x") := rfl

/-- C8 (amended): IndexDocument and Search never return an error under
any stemmer (per-token stemming failures are absorbed), while
DeleteDocument succeeds exactly when the path is currently indexed and
otherwise returns a not-found error. -/
theorem claim_C8 :
    (∀ (se : SearchEngine) (d : Doc), ∃ se', IndexDocument se d = .ok se')
    ∧ (∀ (se : SearchEngine) (q : String) (page ps : Int),
        ∃ out, Search se q page ps = .ok out)
    ∧ (∀ (se : SearchEngine) (p : String),
        (∃ se', DeleteDocumentS se p = .ok se') ↔
          (lookupA se.documents (getBasePath p)).isSome = true) := by
  refine ⟨fun se d => ⟨_, rfl⟩, fun se q page ps => ⟨_, rfl⟩, fun se p => ?_⟩
  unfold DeleteDocumentS
  cases h : lookupA se.documents (getBasePath p) <;> simp [h]

/-- C8 witness: on a concrete engine holding doc1, DeleteDocument
succeeds. -/
theorem claim_C8_witness :
    ∃ se', DeleteDocumentS seIndexed ("doc1") = .ok se' :=
  (claim_C8.2.2 seIndexed ("doc1")).mpr (by rfl)

/-- C6: Search applies a 1-based page window: any page below 1 is
treated as page 1 and any pageSize below 1 as 10; on a concrete engine
with 25 matching documents and pageSize 10, page 3 yields exactly 5
results with total 25, and page 4 yields an empty slice with the same
total. -/
theorem claim_C6 :
    (∀ (se : SearchEngine) (q : String) (page ps : Int), page < 1 →
      searchCore se q page ps = searchCore se q 1 ps)
    ∧ (∀ (se : SearchEngine) (q : String) (page ps : Int), ps < 1 →
      searchCore se q page ps = searchCore se q page 10)
    ∧ (searchCore se25 ("w") 3 10).1.length = 5
    ∧ (searchCore se25 ("w") 3 10).2 = 25
    ∧ (searchCore se25 ("w") 4 10).1 = []
    ∧ (searchCore se25 ("w") 4 10).2 = 25 := by
  refine ⟨?_, ?_, ?_, ?_, ?_, ?_⟩
  · intro se q page ps h
    have h1 : (if page < 1 then (1 : Int) else page) = 1 := if_pos h
    have h2 : (if (1 : Int) < 1 then (1 : Int) else 1) = 1 := by norm_num
    unfold searchCore
    rw [h1, h2]
  · intro se q page ps h
    have h1 : (if ps < 1 then (10 : Int) else ps) = 10 := if_pos h
    have h2 : (if (10 : Int) < 1 then (10 : Int) else 10) = 10 := by norm_num
    unfold searchCore
    rw [h1, h2]
  · rfl
  · rfl
  · rfl
  · rfl

/-- C6 witness: the coercions applied at concrete out-of-range
arguments. -/
theorem claim_C6_witness :
    searchCore se25 ("w") 0 10 = searchCore se25 ("w") 1 10
    ∧ searchCore se25 ("w") 5 (-3) = searchCore se25 ("w") 5 10 :=
  ⟨claim_C6.1 se25 ("w") 0 10 (by norm_num),
   claim_C6.2.1 se25 ("w") 5 (-3) (by norm_num)⟩

/-! ## Search result hydration lemmas (towards C4) -/

theorem mem_hydrate (docs : List (String × Doc)) :
    ∀ (l : List (String × Nat)) (acc : List Doc) (r : Doc),
      r ∈ l.foldl (fun acc e =>
        match lookupA docs e.1 with
        | some d => acc ++ [d]
        | none => acc) acc →
      r ∈ acc ∨ ∃ k, lookupA docs k = some r := by
  intro l
  induction l with
  | nil => intro acc r h; exact .inl h
  | cons e t ih =>
    intro acc r h
    rw [List.foldl_cons] at h
    cases hl : lookupA docs e.1 with
    | none =>
      rw [hl] at h
      exact ih acc r h
    | some d =>
      rw [hl] at h
      rcases ih (acc ++ [d]) r h with h1 | h1
      · rcases List.mem_append.mp h1 with h2 | h2
        · exact .inl h2
        · right
          refine ⟨e.1, ?_⟩
          rw [hl]
          simp at h2
          rw [h2]
      · exact .inr h1

theorem searchCore_mem (se : SearchEngine) (q : String) (page ps : Int) (r : Doc)
    (h : r ∈ (searchCore se q page ps).1) :
    ∃ k, lookupA se.documents k = some r := by
  unfold searchCore at h
  by_cases hc : (searchSorted se q).length ≤
      (((if page < 1 then 1 else page) - 1) * (if ps < 1 then 10 else ps)).toNat
  · rw [if_pos hc] at h
    simp at h
  · rw [if_neg hc] at h
    simp only at h
    rcases mem_hydrate se.documents _ [] r h with h1 | h1
    · simp at h1
    · exact h1

theorem getBasePath_inj (p q : String) (h : getBasePath p = getBasePath q) :
    p = q := by
  unfold getBasePath at h
  by_cases hp : p = "" <;> by_cases hq : q = ""
  · rw [hp, hq]
  · rw [if_pos hp, if_neg hq] at h
    have := congrArg String.length h
    rw [String.length_append] at this
    have h5 : ("data/" : String).length = 5 := rfl
    have h4 : ("data" : String).length = 4 := rfl
    omega
  · rw [if_neg hp, if_pos hq] at h
    have := congrArg String.length h
    rw [String.length_append] at this
    have h5 : ("data/" : String).length = 5 := rfl
    have h4 : ("data" : String).length = 4 := rfl
    omega
  · rw [if_neg hp, if_neg hq] at h
    have hd := congrArg String.data h
    rw [String.data_append, String.data_append] at hd
    have := List.append_cancel_left hd
    cases p
    cases q
    simp at this
    rw [this]

/-- C4: after IndexDocument(D) followed by DeleteDocument(D.Path) on
the search engine, no search result for any query or page references
D.Path, for every well-formed starting state (documents stored under
the base path of their own Path field). -/
theorem claim_C4 (se : SearchEngine)
    (hwf : ∀ e ∈ se.documents, e.1 = getBasePath e.2.Path)
    (D : Doc) (q : String) (page ps : Int) (se1 se2 : SearchEngine)
    (h1 : IndexDocument se D = .ok se1)
    (h2 : DeleteDocumentS se1 D.Path = .ok se2) :
    ∀ r ∈ (searchCore se2 q page ps).1, r.Path ≠ D.Path := by
  intro r hr hpath
  have hdocs1 : se1.documents = setA se.documents (getBasePath D.Path) D := by
    unfold IndexDocument at h1
    simp only [Except.ok.injEq] at h1
    rw [← h1]
  have hlook : lookupA se1.documents (getBasePath D.Path) = some D := by
    rw [hdocs1]
    exact lookupA_setA_self se.documents (getBasePath D.Path) D
  have hdocs2 : se2.documents = eraseA se1.documents (getBasePath D.Path) := by
    unfold DeleteDocumentS at h2
    simp only [hlook, Except.ok.injEq] at h2
    rw [← h2]
  rcases searchCore_mem se2 q page ps r hr with ⟨k, hk⟩
  have hmem : (k, r) ∈ se2.documents := lookupA_mem se2.documents k r hk
  rw [hdocs2] at hmem
  have hkne : ¬ (k == getBasePath D.Path) = true := by
    have := List.of_mem_filter hmem
    simp at this
    simp [this]
  have hmem1 : (k, r) ∈ se1.documents := List.mem_of_mem_filter hmem
  rw [hdocs1] at hmem1
  rcases setA_mem se.documents (getBasePath D.Path) D (k, r) hmem1 with h3 | h3
  · have : k = getBasePath D.Path := congrArg Prod.fst h3
    exact hkne (by simp [this])
  · have hk2 : k = getBasePath r.Path := hwf (k, r) h3
    have : getBasePath r.Path = getBasePath D.Path := by rw [hpath]
    exact hkne (by simp [hk2, this])

/-- C4 witness: the concrete index-then-delete round trip on a fresh
engine, evaluated over the resulting result list. -/
theorem claim_C4_witness :
    ((searchCore seDeleted ("world") 1 10).1.all
      (fun r => r.Path != "doc1")) = true := by
  rw [List.all_eq_true]
  intro r hr
  have h := claim_C4 (NewSearchEngine ["en"] stemId)
    (by intro e he; simp [NewSearchEngine] at he)
    ⟨"doc1", "hello", "world"⟩ ("world") 1 10 seIndexed seDeleted rfl rfl r hr
  simpa using h

/-! ## Order lemmas for the result sort (towards C5) -/

theorem ltChars_irrefl (l : List Char) : ltChars l l = false := by
  induction l with
  | nil => rfl
  | cons a as ih => simp [ltChars, Nat.blt_eq, ih]

theorem ltChars_trans (a b c : List Char) (h1 : ltChars a b = true)
    (h2 : ltChars b c = true) : ltChars a c = true := by
  induction a generalizing b c with
  | nil =>
    cases b with
    | nil => simp [ltChars] at h1
    | cons y ys =>
      cases c with
      | nil => simp [ltChars] at h2
      | cons z zs => simp [ltChars]
  | cons x xs ih =>
    cases b with
    | nil => simp [ltChars] at h1
    | cons y ys =>
      cases c with
      | nil => simp [ltChars] at h2
      | cons z zs =>
        simp only [ltChars, Nat.blt_eq] at h1 h2 ⊢
        rcases Nat.lt_trichotomy x.toNat y.toNat with hxy | hxy | hxy
        · rcases Nat.lt_trichotomy y.toNat z.toNat with hyz | hyz | hyz
          · rw [if_pos (by omega)]
          · rw [if_pos (by omega)]
          · rw [if_neg (by omega), if_pos hyz] at h2
            exact absurd h2 (by simp)
        · rcases Nat.lt_trichotomy y.toNat z.toNat with hyz | hyz | hyz
          · rw [if_pos (by omega)]
          · rw [if_neg (by omega), if_neg (by omega)] at h1
            rw [if_neg (by omega), if_neg (by omega)] at h2
            rw [if_neg (by omega), if_neg (by omega)]
            exact ih ys zs h1 h2
          · rw [if_neg (by omega), if_pos hyz] at h2
            exact absurd h2 (by simp)
        · rw [if_neg (by omega), if_pos hxy] at h1
          exact absurd h1 (by simp)

theorem ltChars_negTrans (a b c : List Char) (h1 : ltChars a b = false)
    (h2 : ltChars b c = false) : ltChars a c = false := by
  induction a generalizing b c with
  | nil =>
    cases b with
    | nil =>
      cases c with
      | nil => rfl
      | cons z zs => simp [ltChars] at h2
    | cons y ys => simp [ltChars] at h1
  | cons x xs ih =>
    cases c with
    | nil => cases b <;> rfl
    | cons z zs =>
      cases b with
      | nil => simp [ltChars] at h2
      | cons y ys =>
        simp only [ltChars, Nat.blt_eq] at h1 h2 ⊢
        rcases Nat.lt_trichotomy x.toNat y.toNat with hxy | hxy | hxy
        · rw [if_pos hxy] at h1
          exact absurd h1 (by simp)
        · rcases Nat.lt_trichotomy y.toNat z.toNat with hyz | hyz | hyz
          · rw [if_pos hyz] at h2
            exact absurd h2 (by simp)
          · rw [if_neg (by omega), if_neg (by omega)] at h1
            rw [if_neg (by omega), if_neg (by omega)] at h2
            rw [if_neg (by omega), if_neg (by omega)]
            exact ih ys zs h1 h2
          · rw [if_neg (by omega), if_pos (by omega)]
        · rcases Nat.lt_trichotomy y.toNat z.toNat with hyz | hyz | hyz
          · rw [if_pos hyz] at h2
            exact absurd h2 (by simp)
          · rw [if_neg (by omega), if_pos (by omega)]
          · rw [if_neg (by omega), if_pos (by omega)]

theorem beats_irrefl (x : String × Nat) : beats x x = false := by
  simp [beats, ltStr, ltChars_irrefl]

theorem beats_true_iff (x y : String × Nat) :
    beats x y = true ↔ (x.2 = y.2 ∧ ltStr x.1 y.1 = true) ∨ y.2 < x.2 := by
  simp [beats, decide_eq_true_iff]

theorem beats_false_iff (x y : String × Nat) :
    beats x y = false ↔ (x.2 = y.2 → ltStr x.1 y.1 = false) ∧ ¬ y.2 < x.2 := by
  rw [← Bool.not_eq_true, beats_true_iff]
  constructor
  · intro h
    constructor
    · intro he
      cases hl : ltStr x.1 y.1
      · rfl
      · exact absurd (Or.inl ⟨he, hl⟩) h
    · intro hlt
      exact h (Or.inr hlt)
  · rintro ⟨h1, h2⟩ (⟨he, hl⟩ | hlt)
    · rw [h1 he] at hl
      exact Bool.false_ne_true hl
    · exact h2 hlt

theorem beats_trans (x y z : String × Nat) (h1 : beats x y = true)
    (h2 : beats y z = true) : beats x z = true := by
  rw [beats_true_iff] at h1 h2 ⊢
  rcases h1 with ⟨he1, hl1⟩ | hlt1 <;> rcases h2 with ⟨he2, hl2⟩ | hlt2
  · exact Or.inl ⟨he1.trans he2, ltChars_trans _ _ _ hl1 hl2⟩
  · exact Or.inr (by omega)
  · exact Or.inr (by omega)
  · exact Or.inr (by omega)

theorem beats_negTrans (x y z : String × Nat) (h1 : beats x y = false)
    (h2 : beats y z = false) : beats x z = false := by
  rw [beats_false_iff] at h1 h2 ⊢
  rcases h1 with ⟨he1, hn1⟩
  rcases h2 with ⟨he2, hn2⟩
  refine ⟨?_, by omega⟩
  intro he
  have hxy : x.2 = y.2 := by omega
  have hyz : y.2 = z.2 := by omega
  exact ltChars_negTrans x.1.data y.1.data z.1.data (he1 hxy) (he2 hyz)

/-! ## Selection sort lemmas (towards C5) -/

theorem selectStep_len (x : String × Nat) (xs : List (String × Nat)) :
    (selectStep x xs).2.length = xs.length := by
  induction xs generalizing x with
  | nil => rfl
  | cons y ys ih =>
    cases hb : beats y x <;> simp [selectStep, hb, ih]

theorem selectStep_perm (x : String × Nat) (xs : List (String × Nat)) :
    ((selectStep x xs).1 :: (selectStep x xs).2).Perm (x :: xs) := by
  induction xs generalizing x with
  | nil => simp [selectStep]
  | cons y ys ih =>
    cases hb : beats y x
    · simp only [selectStep, hb, Bool.false_eq_true, if_false]
      have ihx := ih x
      exact ((List.Perm.swap (selectStep x ys).1 y (selectStep x ys).2).symm.trans
        ((ihx.cons y).trans (List.Perm.swap x y ys)))
    · simp only [selectStep, hb, if_true]
      have ihy := ih y
      exact ((List.Perm.swap (selectStep y ys).1 x (selectStep y ys).2).symm.trans
        (ihy.cons x))

theorem selectStep_max (x : String × Nat) (xs : List (String × Nat)) :
    ∀ z ∈ x :: xs, beats z (selectStep x xs).1 = false := by
  induction xs generalizing x with
  | nil =>
    intro z hz
    simp at hz
    simp [selectStep, hz, beats_irrefl]
  | cons y ys ih =>
    intro z hz
    cases hb : beats y x
    · simp only [selectStep, hb, Bool.false_eq_true, if_false]
      rcases List.mem_cons.mp hz with hzx | hz'
      · rw [hzx]
        exact ih x x (by simp)
      · rcases List.mem_cons.mp hz' with hzy | hz''
        · rw [hzy]
          exact beats_negTrans y x _ hb (ih x x (by simp))
        · exact ih x z (by simp [hz''])
    · simp only [selectStep, hb, if_true]
      rcases List.mem_cons.mp hz with hzx | hz'
      · rw [hzx]
        have hym : beats y (selectStep y ys).1 = false := ih y y (by simp)
        cases hc : beats x (selectStep y ys).1
        · rfl
        · exfalso
          have ht : beats y (selectStep y ys).1 = true :=
            beats_trans y x _ hb hc
          rw [hym] at ht
          exact Bool.false_ne_true ht
      · rcases List.mem_cons.mp hz' with hzy | hz''
        · rw [hzy]
          exact ih y y (by simp)
        · exact ih y z (by simp [hz''])

theorem sortResultsF_perm : ∀ (n : Nat) (l : List (String × Nat)),
    l.length = n → (sortResultsF n l).Perm l := by
  intro n
  induction n with
  | zero =>
    intro l hl
    rw [List.length_eq_zero] at hl
    rw [hl]
    exact List.Perm.refl _
  | succ n ih =>
    intro l hl
    cases l with
    | nil => exact List.Perm.refl _
    | cons x xs =>
      simp only [sortResultsF]
      have hlen : (selectStep x xs).2.length = n := by
        rw [selectStep_len]
        simpa using hl
      have htail := ih (selectStep x xs).2 hlen
      exact (htail.cons (selectStep x xs).1).trans (selectStep_perm x xs)

theorem sortResultsF_sorted : ∀ (n : Nat) (l : List (String × Nat)),
    l.length = n →
    (sortResultsF n l).Pairwise (fun a b => beats b a = false) := by
  intro n
  induction n with
  | zero =>
    intro l hl
    rw [List.length_eq_zero] at hl
    rw [hl]
    simp [sortResultsF]
  | succ n ih =>
    intro l hl
    cases l with
    | nil => simp [sortResultsF]
    | cons x xs =>
      simp only [sortResultsF]
      have hlen : (selectStep x xs).2.length = n := by
        rw [selectStep_len]
        simpa using hl
      refine List.Pairwise.cons ?_ (ih (selectStep x xs).2 hlen)
      intro z hz
      have hz2 : z ∈ (selectStep x xs).2 :=
        (sortResultsF_perm n (selectStep x xs).2 hlen).mem_iff.mp hz
      have hz3 : z ∈ (selectStep x xs).1 :: (selectStep x xs).2 := by
        simp [hz2]
      have hz4 : z ∈ x :: xs := (selectStep_perm x xs).mem_iff.mp hz3
      exact selectStep_max x xs z hz4

theorem sortResults_perm (l : List (String × Nat)) : (sortResults l).Perm l :=
  sortResultsF_perm l.length l rfl

theorem sortResults_sorted (l : List (String × Nat)) :
    (sortResults l).Pairwise (fun a b => beats b a = false) :=
  sortResultsF_sorted l.length l rfl

/-! ## Distinct result keys (towards C5) -/

theorem mem_keys_addA (l : List (String × Nat)) (k m : String) (n : Nat)
    (h : m ∈ (addA l k n).map (fun e => e.1)) :
    m ∈ l.map (fun e => e.1) ∨ m = k := by
  induction l with
  | nil =>
    simp [addA] at h
    exact .inr h
  | cons e t ih =>
    cases he : e.1 == k
    · rw [addA, he] at h
      simp only [Bool.false_eq_true, if_false, List.map_cons, List.mem_cons] at h
      rcases h with h | h
      · exact .inl (by simp [h])
      · rcases ih h with h' | h'
        · exact .inl (by simp [h'])
        · exact .inr h'
    · rw [addA, he] at h
      simp only [if_true, List.map_cons, List.mem_cons] at h
      rcases h with h | h
      · exact .inl (by simp [h])
      · exact .inl (by simp [h])

theorem nodup_keys_addA (l : List (String × Nat)) (k : String) (n : Nat)
    (h : (l.map (fun e => e.1)).Nodup) :
    ((addA l k n).map (fun e => e.1)).Nodup := by
  induction l with
  | nil => simp [addA]
  | cons e t ih =>
    rw [List.map_cons, List.nodup_cons] at h
    cases he : e.1 == k
    · rw [addA, he]
      simp only [Bool.false_eq_true, if_false, List.map_cons, List.nodup_cons]
      constructor
      · intro hmem
        rcases mem_keys_addA t k e.1 n hmem with h' | h'
        · exact h.1 h'
        · rw [h'] at he
          simp at he
      · exact ih h.2
    · rw [addA, he]
      simp only [if_true, List.map_cons, List.nodup_cons]
      exact h

theorem nodup_keys_searchResults (se : SearchEngine) (q : String) :
    ((searchResults se q).map (fun e => e.1)).Nodup := by
  unfold searchResults
  refine foldl_preserve (fun l : List (String × Nat) => (l.map (fun e => e.1)).Nodup)
    _ ?_ (goFields q) [] (by simp)
  intro a w ha
  refine foldl_preserve (fun l : List (String × Nat) => (l.map (fun e => e.1)).Nodup)
    _ ?_ se.languages a ha
  intro a2 lang ha2
  cases hs : se.stemmer (normToken w) lang with
  | none => simp only [hs]; exact ha2
  | some stemmed =>
    simp only [hs]
    by_cases he : stemmed = ""
    · rw [if_neg (fun hcon => hcon he)]
      exact ha2
    · rw [if_pos he]
      cases hl : lookupA se.index stemmed with
      | none => exact ha2
      | some docs =>
        refine foldl_preserve (fun l : List (String × Nat) => (l.map (fun e => e.1)).Nodup)
          _ ?_ docs a2 ha2
        intro a3 e3 ha3
        exact nodup_keys_addA a3 e3.1 e3.2 ha3

/-- C5: for every engine state and query, the pre-pagination result
list that Search builds is sorted by strictly descending score with
ties broken by ascending path, it is a permutation of the accumulated
per-document scores, and those carry pairwise distinct paths — so the
order is total and deterministic before the page window is applied. -/
theorem claim_C5 (se : SearchEngine) (q : String) :
    (searchSorted se q).Pairwise
      (fun a b => b.2 < a.2 ∨ (a.2 = b.2 ∧ leStr a.1 b.1 = true))
    ∧ (searchSorted se q).Perm (searchResults se q)
    ∧ ((searchResults se q).map (fun e => e.1)).Nodup := by
  refine ⟨?_, sortResults_perm (searchResults se q), nodup_keys_searchResults se q⟩
  have hs := sortResults_sorted (searchResults se q)
  refine hs.imp ?_
  intro a b h
  rw [beats_false_iff] at h
  rcases h with ⟨h1, h2⟩
  rcases Nat.lt_or_ge b.2 a.2 with hlt | hge
  · exact .inl hlt
  · have heq : a.2 = b.2 := by omega
    refine .inr ⟨heq, ?_⟩
    have h3 : ltChars b.1.data a.1.data = false := h1 heq.symm
    simp [leStr, ltStr, h3]

/-! ## Tree store: delete refusal (C7) -/

/-- C7: DeleteDocument on a node that has at least one child directory
fails with the has-children error and returns the filesystem unchanged. -/
theorem claim_C7 (env : Eenv) (fs : Ent) (docPath : List String)
    (h : hasChildrenFs fs docPath = some true) :
    DeleteDocumentT env fs docPath =
      (.error ("cannot delete document with children"), fs) := by
  unfold DeleteDocumentT
  rw [h]

/-- C7 witness: deleting p/x, which has the child directory k, fails
and leaves the tree as it was. -/
theorem claim_C7_witness :
    DeleteDocumentT envOk fsDel ["p", "x"] =
      (.error ("cannot delete document with children"), fsDel) :=
  claim_C7 envOk fsDel ["p", "x"] (by rfl)

/-! ## Tree store: create cleanup lemmas (towards C10) -/

theorem mkdir_removeAll : ∀ (p : List String) (fs fs' : Ent),
    mkdirFs fs p = some fs' → removeAllFs fs' p = fs := by
  intro p
  induction p with
  | nil => intro fs fs' h; simp [mkdirFs] at h
  | cons n p ih =>
    intro fs fs' h
    cases p with
    | nil =>
      cases fs with
      | file c => simp [mkdirFs] at h
      | dir es =>
        cases hl : lookupA es n with
        | some c => simp [mkdirFs, hl] at h
        | none =>
          simp only [mkdirFs, hl, Option.some.injEq] at h
          rw [← h]
          simp only [removeAllFs]
          rw [eraseA_append_single es n (.dir []) hl]
    | cons m q =>
      cases fs with
      | file c => simp [mkdirFs] at h
      | dir es =>
        cases hl : lookupA es n with
        | none => simp [mkdirFs, hl] at h
        | some c =>
          simp only [mkdirFs, hl] at h
          cases hm : mkdirFs c (m :: q) with
          | none => rw [hm] at h; simp at h
          | some c' =>
            rw [hm] at h
            have h2 : some (Ent.dir (setA es n c')) = some fs' := h
            have h3 : Ent.dir (setA es n c') = fs' := by injection h2
            rw [← h3]
            simp only [removeAllFs, lookupA_setA_self]
            rw [setA_setA, ih c c' hm, setA_self es n c hl]

theorem removeAll_writeFile : ∀ (p : List String) (fs fs' : Ent) (c f : String),
    writeFileFs fs c (p ++ [f]) = some fs' →
    p ≠ [] → removeAllFs fs' p = removeAllFs fs p := by
  intro p
  induction p with
  | nil => intro fs fs' c f h hne; exact absurd rfl hne
  | cons n p ih =>
    intro fs fs' c f h hne
    cases p with
    | nil =>
      cases fs with
      | file co => simp [writeFileFs] at h
      | dir es =>
        cases hl : lookupA es n with
        | none => simp [writeFileFs, hl] at h
        | some ch =>
          simp only [writeFileFs, hl] at h
          have h' : (writeFileFs ch c [f]).map
              (fun c' => Ent.dir (setA es n c')) = some fs' := h
          cases hw : writeFileFs ch c [f] with
          | none => rw [hw] at h'; simp at h'
          | some ch' =>
            rw [hw] at h'
            have h2 : some (Ent.dir (setA es n ch')) = some fs' := h'
            have h3 : Ent.dir (setA es n ch') = fs' := by injection h2
            rw [← h3]
            simp only [removeAllFs]
            rw [eraseA_setA]
    | cons m q =>
      cases fs with
      | file co => simp [writeFileFs] at h
      | dir es =>
        simp only [List.cons_append] at h
        cases hl : lookupA es n with
        | none => simp [writeFileFs, hl] at h
        | some ch =>
          simp only [writeFileFs, hl] at h
          have h' : (writeFileFs ch c ((m :: q) ++ [f])).map
              (fun c' => Ent.dir (setA es n c')) = some fs' := h
          cases hw : writeFileFs ch c ((m :: q) ++ [f]) with
          | none => rw [hw] at h'; simp at h'
          | some ch' =>
            rw [hw] at h'
            have h2 : some (Ent.dir (setA es n ch')) = some fs' := h'
            have h3 : Ent.dir (setA es n ch') = fs' := by injection h2
            rw [← h3]
            simp only [removeAllFs, lookupA_setA_self, hl]
            rw [setA_setA, ih ch ch' c f hw (by simp)]

/-- C10: when CreateDocument fails after the node directory was created
(an injected WriteFile failure or a commit failure), it removes the
directory again and hands back the original filesystem. -/
theorem claim_C10 (translit : String → String) (env : Eenv) (fs : Ent)
    (parentPath : List String) (title content : String) (fs1 : Ent)
    (hfail : env.writeFails = true ∨ env.commitFails = true)
    (hmk : mkdirFs fs (parentPath ++ [generateID translit fs parentPath title]) = some fs1) :
    (∃ e, (CreateDocument translit env fs parentPath title content).1 = .error e)
    ∧ (CreateDocument translit env fs parentPath title content).2 = fs := by
  cases hw : env.writeFails
  · have hcf : env.commitFails = true := by
      rcases hfail with h | h
      · rw [h] at hw; cases hw
      · exact h
    unfold CreateDocument
    simp only [hmk, hw, Bool.false_eq_true, if_false]
    cases hwr : writeFileFs fs1 content
        ((parentPath ++ [generateID translit fs parentPath title]) ++ [title ++ ".md"]) with
    | none =>
      refine ⟨⟨"write file", rfl⟩, ?_⟩
      exact mkdir_removeAll _ fs fs1 hmk
    | some fs2 =>
      simp only [hcf, if_true]
      refine ⟨⟨"failed to commit changes", rfl⟩, ?_⟩
      show removeAllFs fs2 _ = fs
      rw [removeAll_writeFile _ fs1 fs2 content (title ++ ".md") hwr (by simp)]
      exact mkdir_removeAll _ fs fs1 hmk
  · unfold CreateDocument
    simp only [hmk, hw, if_true]
    refine ⟨⟨"write file", rfl⟩, ?_⟩
    exact mkdir_removeAll _ fs fs1 hmk

/-- C10 witness: a concrete WriteFile failure during creation under p
leaves the tree exactly as before. -/
theorem claim_C10_witness :
    (∃ e, (CreateDocument trId ⟨true, false⟩ fsPar ["p"] ("T") ("c")).1 = .error e)
    ∧ (CreateDocument trId ⟨true, false⟩ fsPar ["p"] ("T") ("c")).2 = fsPar :=
  claim_C10 trId ⟨true, false⟩ fsPar ["p"] ("T") ("c")
    (.dir [("p", .dir [("q", .dir [("Q.md", .file ("z"))]), ("t", .dir [])])])
    (Or.inl rfl) (by rfl)

/-! ## String facts for ID candidates (towards C2) -/

theorem cand_eq_one (b : String) : b ++ "(" ++ toString 1 ++ ")" = b ++ "(1)" := by
  rw [String.append_assoc, String.append_assoc]
  rfl

theorem cand_eq_two (b : String) : b ++ "(" ++ toString 2 ++ ")" = b ++ "(2)" := by
  rw [String.append_assoc, String.append_assoc]
  rfl

theorem append_paren_ne_root (b s : String) (h1 : s.data ≠ [])
    (h2 : s.data.getLast? ≠ some 't') : b ++ s ≠ "root" := by
  intro h
  have hd := congrArg String.data h
  rw [String.data_append] at hd
  have h3 := congrArg List.getLast? hd
  rw [List.getLast?_append_of_ne_nil b.data h1] at h3
  have hr : ("root" : String).data.getLast? = some 't' := rfl
  rw [hr] at h3
  exact h2 h3

theorem append_ne_self (b s : String) (hs : s ≠ "") : b ++ s ≠ b := by
  intro h
  have hlen := congrArg String.length h
  rw [String.length_append] at hlen
  have hz : s.data.length = 0 := by
    have : s.length = 0 := by omega
    exact this
  have hnil : s.data = [] := List.length_eq_zero.mp hz
  exact hs (String.ext hnil)

theorem append_ne_of_ne (b s t : String) (h : ¬ s = t) : ¬ b ++ s = b ++ t := by
  intro he
  apply h
  have hd := congrArg String.data he
  rw [String.data_append, String.data_append] at hd
  exact String.ext (List.append_cancel_left hd)

/-! ## Path lookup lemmas (towards C2 and C3) -/

theorem lookupFs_single (es : List (String × Ent)) (m : String) :
    lookupFs (.dir es) [m] = lookupA es m := by
  cases hl : lookupA es m <;> simp [lookupFs, hl]

theorem lookupFs_snoc (fs : Ent) (p : List String) (m : String) :
    lookupFs fs (p ++ [m]) = (lookupFs fs p).bind (fun e =>
      match e with
      | .dir es => lookupA es m
      | .file _ => none) := by
  induction p generalizing fs with
  | nil =>
    simp only [List.nil_append, lookupFs, Option.bind]
    cases fs with
    | file c => rfl
    | dir es => exact lookupFs_single es m
  | cons a p ih =>
    cases fs with
    | file c => rfl
    | dir es =>
      simp only [List.cons_append, lookupFs]
      cases hl : lookupA es a with
      | none => rfl
      | some c => exact ih c

/-! ## generateID unfolding lemmas (towards C2 and C3) -/

theorem genIdLoop_accept (fs : Ent) (pp : List String) (base id : String)
    (fuel ctr : Nat) (h1 : id ≠ "root")
    (h2 : lookupFs fs (pp ++ [id]) = none) :
    genIdLoop fs pp base (fuel + 1) id ctr = id := by
  simp [genIdLoop, h1, h2]

theorem genIdLoop_skip (fs : Ent) (pp : List String) (base id : String)
    (fuel ctr : Nat)
    (h : id = "root" ∨ (lookupFs fs (pp ++ [id])).isSome = true) :
    genIdLoop fs pp base (fuel + 1) id ctr =
      genIdLoop fs pp base fuel (base ++ "(" ++ toString ctr ++ ")") (ctr + 1) := by
  rcases h with h | h
  · simp [genIdLoop, h]
  · have h2 : (lookupFs fs (pp ++ [id])).isNone = false := by
      cases hx : lookupFs fs (pp ++ [id])
      · rw [hx] at h; simp at h
      · rfl
    simp [genIdLoop, h2]

theorem generateID_accept (tr : String → String) (fs : Ent) (pp : List String)
    (title : String) (h1 : genIdBase tr title ≠ "root")
    (h2 : lookupFs fs (pp ++ [genIdBase tr title]) = none) :
    generateID tr fs pp title = genIdBase tr title := by
  unfold generateID
  exact genIdLoop_accept fs pp _ _ _ 1 h1 h2

theorem generateID_second (tr : String → String) (fs : Ent) (pp : List String)
    (title : String)
    (h1 : (lookupFs fs (pp ++ [genIdBase tr title])).isSome = true)
    (h2 : genIdBase tr title ++ "(1)" ≠ "root")
    (h3 : lookupFs fs (pp ++ [genIdBase tr title ++ "(1)"]) = none) :
    generateID tr fs pp title = genIdBase tr title ++ "(1)" := by
  unfold generateID
  rw [genIdLoop_skip fs pp _ _ _ 1 (Or.inr h1), cand_eq_one]
  exact genIdLoop_accept fs pp _ _ _ 2 h2 h3

theorem generateID_third (tr : String → String) (fs : Ent) (pp : List String)
    (title : String) (es : List (String × Ent)) (k : Nat)
    (hpp : lookupFs fs pp = some (.dir es))
    (hlen : es.length = k + 1)
    (h1 : (lookupFs fs (pp ++ [genIdBase tr title])).isSome = true)
    (h2 : (lookupFs fs (pp ++ [genIdBase tr title ++ "(1)"])).isSome = true)
    (h3 : genIdBase tr title ++ "(2)" ≠ "root")
    (h4 : lookupFs fs (pp ++ [genIdBase tr title ++ "(2)"]) = none) :
    generateID tr fs pp title = genIdBase tr title ++ "(2)" := by
  unfold generateID
  simp only [hpp, hlen]
  rw [genIdLoop_skip fs pp _ _ _ 1 (Or.inr h1)]
  rw [cand_eq_one]
  rw [genIdLoop_skip fs pp _ _ _ 2 (Or.inr h2)]
  rw [cand_eq_two]
  exact genIdLoop_accept fs pp _ _ k 3 h3 h4

/-! ## Creation effect lemmas (towards C2) -/

theorem mkdir_effect : ∀ (pp : List String) (fs : Ent)
    (es : List (String × Ent)) (n : String),
    lookupFs fs pp = some (.dir es) → lookupA es n = none →
    ∃ fs', mkdirFs fs (pp ++ [n]) = some fs' ∧
      lookupFs fs' pp = some (.dir (es ++ [(n, .dir [])])) ∧
      (∀ m, m ≠ n → lookupFs fs' (pp ++ [m]) = lookupFs fs (pp ++ [m])) := by
  intro pp
  induction pp with
  | nil =>
    intro fs es n hpp hn
    have hfs : fs = .dir es := by
      simp [lookupFs] at hpp
      exact hpp
    subst hfs
    refine ⟨.dir (es ++ [(n, .dir [])]), ?_, ?_, ?_⟩
    · simp [mkdirFs, hn]
    · simp [lookupFs]
    · intro m hm
      simp only [List.nil_append]
      rw [lookupFs_single, lookupFs_single]
      exact lookupA_append_single_ne es n m (.dir []) hm
  | cons a pp ih =>
    intro fs es n hpp hn
    cases fs with
    | file c => simp [lookupFs] at hpp
    | dir as =>
      simp only [lookupFs] at hpp
      cases hla : lookupA as a with
      | none => rw [hla] at hpp; simp at hpp
      | some c =>
        rw [hla] at hpp
        obtain ⟨c', hc1, hc2, hc3⟩ := ih c es n hpp hn
        refine ⟨.dir (setA as a c'), ?_, ?_, ?_⟩
        · have hne : pp ++ [n] ≠ [] := by simp
          cases hq : pp ++ [n] with
          | nil => exact absurd hq hne
          | cons q qs =>
            show mkdirFs (.dir as) (a :: (pp ++ [n])) = _
            rw [hq]
            simp only [mkdirFs, hla]
            rw [← hq, hc1]
            rfl
        · simp only [lookupFs, lookupA_setA_self]
          exact hc2
        · intro m hm
          show lookupFs (.dir (setA as a c')) (a :: (pp ++ [m])) =
            lookupFs (.dir as) (a :: (pp ++ [m]))
          simp only [lookupFs, lookupA_setA_self, hla]
          exact hc3 m hm

theorem write_effect : ∀ (pp : List String) (fs : Ent)
    (es : List (String × Ent)) (n : String) (ds : List (String × Ent))
    (f c : String),
    lookupFs fs pp = some (.dir es) → lookupA es n = some (.dir ds) →
    (∀ x, lookupA ds f ≠ some (.dir x)) →
    ∃ fs', writeFileFs fs c ((pp ++ [n]) ++ [f]) = some fs' ∧
      lookupFs fs' pp = some (.dir (setA es n (.dir (setA ds f (.file c))))) ∧
      (∀ m, m ≠ n → lookupFs fs' (pp ++ [m]) = lookupFs fs (pp ++ [m])) := by
  intro pp
  induction pp with
  | nil =>
    intro fs es n ds f c hpp hn hnd
    have hfs : fs = .dir es := by
      simp [lookupFs] at hpp
      exact hpp
    subst hfs
    have hinner : writeFileFs (.dir ds) c [f] =
        some (.dir (setA ds f (.file c))) := by
      cases hdf : lookupA ds f with
      | none => simp [writeFileFs, hdf]
      | some e =>
        cases e with
        | dir x => exact absurd hdf (hnd x)
        | file x => simp [writeFileFs, hdf]
    refine ⟨.dir (setA es n (.dir (setA ds f (.file c)))), ?_, ?_, ?_⟩
    · show writeFileFs (.dir es) c (n :: [f]) = _
      simp only [writeFileFs, hn]
      rfl
    · simp [lookupFs]
    · intro m hm
      simp only [List.nil_append]
      rw [lookupFs_single, lookupFs_single]
      exact lookupA_setA_ne es n m _ hm
  | cons a pp ih =>
    intro fs es n ds f c hpp hn hnd
    cases fs with
    | file co => simp [lookupFs] at hpp
    | dir as =>
      simp only [lookupFs] at hpp
      cases hla : lookupA as a with
      | none => rw [hla] at hpp; simp at hpp
      | some ch =>
        rw [hla] at hpp
        obtain ⟨c', hc1, hc2, hc3⟩ := ih ch es n ds f c hpp hn hnd
        refine ⟨.dir (setA as a c'), ?_, ?_, ?_⟩
        · show writeFileFs (.dir as) c (a :: ((pp ++ [n]) ++ [f])) = _
          have hne : (pp ++ [n]) ++ [f] ≠ [] := by simp
          cases hq : (pp ++ [n]) ++ [f] with
          | nil => exact absurd hq hne
          | cons q qs =>
            simp only [writeFileFs, hla]
            rw [← hq, hc1]
            rfl
        · simp only [lookupFs, lookupA_setA_self]
          exact hc2
        · intro m hm
          show lookupFs (.dir (setA as a c')) (a :: (pp ++ [m])) =
            lookupFs (.dir as) (a :: (pp ++ [m]))
          simp only [lookupFs, lookupA_setA_self, hla]
          exact hc3 m hm

theorem getChildren_some (fs : Ent) (pp : List String)
    (es : List (String × Ent)) (h : lookupFs fs pp = some (.dir es)) :
    ∃ l, getChildrenFs fs pp = some l := by
  unfold getChildrenFs
  rw [h]
  exact ⟨_, rfl⟩

theorem lookupA_of_snoc_none (fs : Ent) (pp : List String)
    (es : List (String × Ent)) (m : String)
    (hpp : lookupFs fs pp = some (.dir es))
    (h : lookupFs fs (pp ++ [m]) = none) : lookupA es m = none := by
  have hs := lookupFs_snoc fs pp m
  rw [hpp, h] at hs
  exact hs.symm

theorem snoc_isSome_of_lookupA (fs : Ent) (pp : List String)
    (es : List (String × Ent)) (m : String) (v : Ent)
    (hpp : lookupFs fs pp = some (.dir es))
    (h : lookupA es m = some v) :
    (lookupFs fs (pp ++ [m])).isSome = true := by
  rw [lookupFs_snoc fs pp m, hpp]
  show (lookupA es m).isSome = true
  rw [h]
  rfl

/-- C2 counterexample: on a title containing a tab, the source pipeline
strips the tab (only spaces become underscores) while the pipeline the
claim describes (whitespace becomes underscores) would keep a
separator, so the resulting IDs differ. -/
theorem claim_C2_counterexample :
    (CreateDocument trId envOk (.dir []) [] tabTitle ("c")).1.map (fun d => d.ID) =
      .ok ("ab")
    ∧ genIdBase trId tabTitle = "ab"
    ∧ slugSpec trId tabTitle = "a_b"
    ∧ ("ab" : String) ≠ "a_b" :=
  ⟨rfl, rfl, rfl, by decide⟩

/-- C2 (amended): the ID is the source slug of the title
(transliterate, replace spaces — not all whitespace — by underscores,
strip other characters, lowercase), the name root is reserved, and for
a fixed parent three documents whose titles share a slug b that is
neither reserved nor present get IDs b, b(1) and b(2). -/
theorem claim_C2 (tr : String → String) (fs : Ent) (pp : List String)
    (es : List (String × Ent)) (t1 t2 t3 c1 c2 c3 b : String)
    (hb1 : genIdBase tr t1 = b) (hb2 : genIdBase tr t2 = b)
    (hb3 : genIdBase tr t3 = b) (hroot : b ≠ "root")
    (hpp : lookupFs fs pp = some (.dir es))
    (h0 : lookupFs fs (pp ++ [b]) = none)
    (h1 : lookupFs fs (pp ++ [b ++ "(1)"]) = none)
    (h2 : lookupFs fs (pp ++ [b ++ "(2)"]) = none) :
    ∃ d1 fs1 d2 fs2 d3 fs3,
      CreateDocument tr envOk fs pp t1 c1 = (.ok d1, fs1) ∧ d1.ID = b ∧
      CreateDocument tr envOk fs1 pp t2 c2 = (.ok d2, fs2) ∧ d2.ID = b ++ "(1)" ∧
      CreateDocument tr envOk fs2 pp t3 c3 = (.ok d3, fs3) ∧
      d3.ID = b ++ "(2)" := by
  have hb1r : b ++ "(1)" ≠ b := append_ne_self b "(1)" (by decide)
  have hb2r : b ++ "(2)" ≠ b := append_ne_self b "(2)" (by decide)
  have hb21 : b ++ "(2)" ≠ b ++ "(1)" := append_ne_of_ne b "(2)" "(1)" (by decide)
  have hroot1 : b ++ "(1)" ≠ "root" := append_paren_ne_root b "(1)" (by decide) (by decide)
  have hroot2 : b ++ "(2)" ≠ "root" := append_paren_ne_root b "(2)" (by decide) (by decide)
  -- first creation
  have hid1 : generateID tr fs pp t1 = b := by
    have h := generateID_accept tr fs pp t1 (by rw [hb1]; exact hroot)
      (by rw [hb1]; exact h0)
    rw [hb1] at h
    exact h
  have hesb : lookupA es b = none := lookupA_of_snoc_none fs pp es b hpp h0
  obtain ⟨fsA, hmkA, hppA, hprA⟩ := mkdir_effect pp fs es b hpp hesb
  have hlkA : lookupA (es ++ [(b, .dir [])]) b = some (.dir []) :=
    lookupA_append_single_self es b (.dir []) hesb
  obtain ⟨fs1, hwrA, hpp1', hpr1⟩ :=
    write_effect pp fsA (es ++ [(b, .dir [])]) b [] (t1 ++ ".md") c1 hppA hlkA
      (by intro x; simp [lookupA_nil])
  have hset1 : setA (es ++ [(b, Ent.dir [])]) b
      (Ent.dir (setA [] (t1 ++ ".md") (Ent.file c1)))
      = es ++ [(b, Ent.dir [(t1 ++ ".md", Ent.file c1)])] := by
    rw [setA_append_fresh es b _ _ hesb]
    rfl
  have hpp1 : lookupFs fs1 pp =
      some (.dir (es ++ [(b, Ent.dir [(t1 ++ ".md", Ent.file c1)])])) := by
    rw [← hset1]
    exact hpp1'
  obtain ⟨ch1, hch1⟩ := getChildren_some fs1 pp _ hpp1
  have hc1eq : CreateDocument tr envOk fs pp t1 c1 =
      (.ok ⟨b, t1, c1, ch1, pp ++ [b]⟩, fs1) := by
    unfold CreateDocument
    simp only [hid1, hmkA, hwrA, hch1, envOk, Bool.false_eq_true, if_false]
  have hpr : ∀ m, m ≠ b → lookupFs fs1 (pp ++ [m]) = lookupFs fs (pp ++ [m]) := by
    intro m hm
    rw [hpr1 m hm, hprA m hm]
  -- second creation
  have hsome1 : (lookupFs fs1 (pp ++ [b])).isSome = true :=
    snoc_isSome_of_lookupA fs1 pp _ b (Ent.dir [(t1 ++ ".md", Ent.file c1)]) hpp1
      (lookupA_append_single_self es b _ hesb)
  have hfree1 : lookupFs fs1 (pp ++ [b ++ "(1)"]) = none := by
    rw [hpr _ hb1r]
    exact h1
  have hid2 : generateID tr fs1 pp t2 = b ++ "(1)" := by
    have h := generateID_second tr fs1 pp t2 (by rw [hb2]; exact hsome1)
      (by rw [hb2]; exact hroot1) (by rw [hb2]; exact hfree1)
    rw [hb2] at h
    exact h
  have hes1b1 : lookupA (es ++ [(b, Ent.dir [(t1 ++ ".md", Ent.file c1)])])
      (b ++ "(1)") = none := by
    rw [lookupA_append_single_ne es b (b ++ "(1)") _ hb1r]
    exact lookupA_of_snoc_none fs pp es (b ++ "(1)") hpp h1
  obtain ⟨fsB, hmkB, hppB, hprB⟩ := mkdir_effect pp fs1 _ (b ++ "(1)") hpp1 hes1b1
  have hlkB : lookupA ((es ++ [(b, Ent.dir [(t1 ++ ".md", Ent.file c1)])])
      ++ [(b ++ "(1)", .dir [])]) (b ++ "(1)") = some (.dir []) :=
    lookupA_append_single_self _ (b ++ "(1)") (.dir []) hes1b1
  obtain ⟨fs2, hwrB, hpp2', hpr2⟩ :=
    write_effect pp fsB _ (b ++ "(1)") [] (t2 ++ ".md") c2 hppB hlkB
      (by intro x; simp [lookupA_nil])
  have hset2 : setA ((es ++ [(b, Ent.dir [(t1 ++ ".md", Ent.file c1)])])
      ++ [(b ++ "(1)", Ent.dir [])]) (b ++ "(1)")
      (Ent.dir (setA [] (t2 ++ ".md") (Ent.file c2)))
      = (es ++ [(b, Ent.dir [(t1 ++ ".md", Ent.file c1)])])
        ++ [(b ++ "(1)", Ent.dir [(t2 ++ ".md", Ent.file c2)])] := by
    rw [setA_append_fresh _ _ _ _ hes1b1]
    rfl
  have hpp2 : lookupFs fs2 pp =
      some (.dir ((es ++ [(b, Ent.dir [(t1 ++ ".md", Ent.file c1)])])
        ++ [(b ++ "(1)", Ent.dir [(t2 ++ ".md", Ent.file c2)])])) := by
    rw [← hset2]
    exact hpp2'
  obtain ⟨ch2, hch2⟩ := getChildren_some fs2 pp _ hpp2
  have hc2eq : CreateDocument tr envOk fs1 pp t2 c2 =
      (.ok ⟨b ++ "(1)", t2, c2, ch2, pp ++ [b ++ "(1)"]⟩, fs2) := by
    unfold CreateDocument
    simp only [hid2, hmkB, hwrB, hch2, envOk, Bool.false_eq_true, if_false]
  have hprTwo : ∀ m, m ≠ b ++ "(1)" →
      lookupFs fs2 (pp ++ [m]) = lookupFs fs1 (pp ++ [m]) := by
    intro m hm
    rw [hpr2 m hm, hprB m hm]
  -- third creation
  have hsome2b : (lookupFs fs2 (pp ++ [b])).isSome = true := by
    refine snoc_isSome_of_lookupA fs2 pp _ b
      (Ent.dir [(t1 ++ ".md", Ent.file c1)]) hpp2 ?_
    rw [lookupA_append_single_ne _ (b ++ "(1)") b _ (fun hx => hb1r hx.symm)]
    exact lookupA_append_single_self es b _ hesb
  have hsome2b1 : (lookupFs fs2 (pp ++ [b ++ "(1)"])).isSome = true :=
    snoc_isSome_of_lookupA fs2 pp _ (b ++ "(1)")
      (Ent.dir [(t2 ++ ".md", Ent.file c2)]) hpp2
      (lookupA_append_single_self _ (b ++ "(1)") _ hes1b1)
  have hfree2 : lookupFs fs2 (pp ++ [b ++ "(2)"]) = none := by
    rw [hprTwo _ hb21, hpr _ hb2r]
    exact h2
  have hid3 : generateID tr fs2 pp t3 = b ++ "(2)" := by
    have h := generateID_third tr fs2 pp t3 _ (es.length + 1) hpp2 (by simp)
      (by rw [hb3]; exact hsome2b) (by rw [hb3]; exact hsome2b1)
      (by rw [hb3]; exact hroot2) (by rw [hb3]; exact hfree2)
    rw [hb3] at h
    exact h
  have hes2b2 : lookupA ((es ++ [(b, Ent.dir [(t1 ++ ".md", Ent.file c1)])])
      ++ [(b ++ "(1)", Ent.dir [(t2 ++ ".md", Ent.file c2)])]) (b ++ "(2)") = none := by
    rw [lookupA_append_single_ne _ (b ++ "(1)") (b ++ "(2)") _ hb21]
    rw [lookupA_append_single_ne es b (b ++ "(2)") _ hb2r]
    exact lookupA_of_snoc_none fs pp es (b ++ "(2)") hpp h2
  obtain ⟨fsC, hmkC, hppC, hprC⟩ := mkdir_effect pp fs2 _ (b ++ "(2)") hpp2 hes2b2
  have hlkC : lookupA (((es ++ [(b, Ent.dir [(t1 ++ ".md", Ent.file c1)])])
      ++ [(b ++ "(1)", Ent.dir [(t2 ++ ".md", Ent.file c2)])])
      ++ [(b ++ "(2)", .dir [])]) (b ++ "(2)") = some (.dir []) :=
    lookupA_append_single_self _ (b ++ "(2)") (.dir []) hes2b2
  obtain ⟨fs3, hwrC, hpp3', hpr3⟩ :=
    write_effect pp fsC _ (b ++ "(2)") [] (t3 ++ ".md") c3 hppC hlkC
      (by intro x; simp [lookupA_nil])
  have hpp3 : ∃ es3, lookupFs fs3 pp = some (.dir es3) := ⟨_, hpp3'⟩
  obtain ⟨es3, hpp3''⟩ := hpp3
  obtain ⟨ch3, hch3⟩ := getChildren_some fs3 pp es3 hpp3''
  have hc3eq : CreateDocument tr envOk fs2 pp t3 c3 =
      (.ok ⟨b ++ "(2)", t3, c3, ch3, pp ++ [b ++ "(2)"]⟩, fs3) := by
    unfold CreateDocument
    simp only [hid3, hmkC, hwrC, hch3, envOk, Bool.false_eq_true, if_false]
  exact ⟨_, fs1, _, fs2, _, fs3, hc1eq, rfl, hc2eq, rfl, hc3eq, rfl⟩

/-- C2 witness: three creations titled Hello World! under an empty root
produce hello_world, hello_world(1) and hello_world(2). -/
theorem claim_C2_witness :
    ∃ d1 fs1 d2 fs2 d3 fs3,
      CreateDocument trId envOk (.dir []) [] ("Hello World!") ("a") =
        (.ok d1, fs1) ∧ d1.ID = "hello_world" ∧
      CreateDocument trId envOk fs1 [] ("Hello World!") ("b") =
        (.ok d2, fs2) ∧ d2.ID = "hello_world" ++ "(1)" ∧
      CreateDocument trId envOk fs2 [] ("Hello World!") ("c") =
        (.ok d3, fs3) ∧ d3.ID = "hello_world" ++ "(2)" :=
  claim_C2 trId (.dir []) [] [] ("Hello World!") ("Hello World!")
    ("Hello World!") ("a") ("b") ("c") ("hello_world")
    rfl rfl rfl (by decide) rfl rfl rfl rfl

/-! ## UpdateDocument rename behaviour (C3) -/

/-- C3 counterexample: the node p/x has an empty-directory sibling p/y;
retitling p/x to Y makes the code pick the ID y — the collision loop
ran against the children of p/x, not against its siblings — although
sibling-resolution (generateID against the parent p) yields y(1). -/
theorem claim_C3_counterexample :
    (UpdateDocument trId envOk fsUpd ["p", "x"] ("Y") ("c2") true).1.map
      (fun d => d.ID) = .ok ("y")
    ∧ generateID trId fsUpd ["p"] ("Y") = "y(1)"
    ∧ ("y" : String) ≠ "y(1)" :=
  ⟨rfl, rfl, by decide⟩

/-- C3 (amended): when the title changes, UpdateDocument renames the
content file and then the node directory to a freshly generated ID
whose collision loop checks existence under the node's own path — that
is, against the node's children, here exhibited by a child collision
forcing the (1) suffix — and the resulting Document carries the new
path parent-dir/newID. -/
theorem claim_C3 (tr : String → String) (env : Eenv) (fs fsA fsB fs2 : Ent)
    (docPath : List String) (title content : String) (commit : Bool)
    (currentDoc : GDoc) (oldTitle : String) (ch : List ShortDoc)
    (hex : (lookupFs fs docPath).isNone = false)
    (hread : readDocumentFs fs docPath = some currentDoc)
    (htitle : ¬ title = currentDoc.Title)
    (hget : getTitleFs fs docPath = some oldTitle)
    (hren1 : renameFs fs (docPath ++ [oldTitle ++ ".md"])
      (docPath ++ [title ++ ".md"]) = some fsA)
    (hcand : (lookupFs fsA (docPath ++ [genIdBase tr title])).isSome = true)
    (hfree : lookupFs fsA (docPath ++ [genIdBase tr title ++ "(1)"]) = none)
    (hren2 : renameFs fsA docPath
      (docPath.dropLast ++ [genIdBase tr title ++ "(1)"]) = some fsB)
    (hwrite : writeFileFs fsB content
      ((docPath.dropLast ++ [genIdBase tr title ++ "(1)"]) ++ [title ++ ".md"]) =
      some fs2)
    (hcommit : (commit && env.commitFails) = false)
    (hch : getChildrenFs fs2
      (docPath.dropLast ++ [genIdBase tr title ++ "(1)"]) = some ch) :
    UpdateDocument tr env fs docPath title content commit =
      (.ok ⟨(docPath.dropLast ++ [genIdBase tr title ++ "(1)"]).getLastD ("."),
            title, content, ch,
            docPath.dropLast ++ [genIdBase tr title ++ "(1)"]⟩, fs2) := by
  have hid : generateID tr fsA docPath title = genIdBase tr title ++ "(1)" :=
    generateID_second tr fsA docPath title hcand
      (append_paren_ne_root _ "(1)" (by decide) (by decide)) hfree
  unfold UpdateDocument
  simp only [hex, Bool.false_eq_true, if_false, hread, hget, hren1, hid, hren2]
  rw [if_pos htitle]
  unfold updateFinish
  simp only [hwrite, hcommit, Bool.false_eq_true, if_false, hch]

/-- C3 witness: the concrete child-collision scenario. -/
theorem claim_C3_witness :
    UpdateDocument trId envOk fsChild ["x"] ("Y") ("c2") false =
      (.ok ⟨"y(1)", "Y", "c2", [⟨"y", "Y", false, ["y(1)", "y"]⟩], ["y(1)"]⟩,
       .dir [("y(1)", .dir [("y", .dir [("Y.md", .file ("k"))]),
                            ("Y.md", .file ("c2"))])]) :=
  claim_C3 trId envOk fsChild
    (.dir [("x", .dir [("y", .dir [("Y.md", .file ("k"))]), ("Y.md", .file ("c"))])])
    (.dir [("y(1)", .dir [("y", .dir [("Y.md", .file ("k"))]), ("Y.md", .file ("c"))])])
    (.dir [("y(1)", .dir [("y", .dir [("Y.md", .file ("k"))]), ("Y.md", .file ("c2"))])])
    ["x"] ("Y") ("c2") false
    ⟨"x", "Old", "c", [⟨"y", "Y", false, ["x", "y"]⟩], ["x"]⟩ ("Old")
    [⟨"y", "Y", false, ["y(1)", "y"]⟩]
    rfl rfl (by decide) rfl rfl rfl rfl rfl rfl rfl rfl

/-! ## History reconstruction behaviour (C1)

In the C1 scenario (create at docs/b as the root commit, two edits, a
title-change rename to docs/d, one more edit), the reconstruction
returns three entries: the rename hm and the two pre-rename edits hc
and hb.  The newest commit he is dropped because the very first
invocation of the stateful PathFilter — which resolves the captured
filePath from the current title — compares the repository-relative
candidate path against the base-prefixed filePath without joining it,
and therefore never matches; the creation commit ha is the repository
root commit and the walk skips it.  On a repository that held an
earlier unrelated commit, the same operations yield four entries, but
composed of the rename, both edits and the creation — still missing
the newest edit.  No hash repeats in either output. -/

/-- C1: the history the code actually reconstructs in the
create/edit/edit/rename/edit scenario: three entries in a fresh
repository (newest edit dropped, root creation skipped), four in a
repository with a prior commit, with no duplicated commit hash. -/
theorem claim_C1 :
    (GetDocumentHistory c1Repo ("d")).map
      (fun l => l.map (fun e => e.CommitHash)) = .ok (["hm", "hc", "hb"])
    ∧ (GetDocumentHistory c1RepoPrior ("d")).map
      (fun l => l.map (fun e => e.CommitHash)) = .ok (["hm", "hc", "hb", "ha"])
    ∧ (["hm", "hc", "hb"] : List String).Nodup
    ∧ (["hm", "hc", "hb", "ha"] : List String).Nodup :=
  ⟨rfl, rfl, by decide, by decide⟩

end Okidoki
